import Mathlib

/-!
Verification of the input-event coordinator of the `@webframer/js` repository:
the keyboard-shortcut dispatcher (two revisions: `src/keyboard.js` and the
variant in `src/unnamed/part_003`) and the pointer-drag gesture tracker
(`src/pointer.js`), with the key tables from `src/constants.js` and the
object helper `swapKeyWithValue` from `src/object.js`.

The embedding is shallow: JavaScript objects used as string-keyed maps become
association lists in insertion order, JavaScript arrays become `List`,
`Map` becomes an association list, key codes become `Int` (the internal
canonical `KEY.Ctrl` is the negative code `-17`), and the default
`Array.prototype.sort()` — which compares elements by their decimal string
forms — is modelled by an insertion sort over the rendered strings.
Handlers are opaque and identified by natural numbers; invoking a handler is
recorded in a call trace instead of executed.
-/

/-! ## JavaScript number-to-string rendering

`String(n)` for an integer yields its decimal form.  We render digits
most-significant first with explicit fuel so that everything reduces in the
kernel. -/

/-- Decimal digit characters of `n` (big-endian), empty for `n = 0`;
`fuel` bounds the recursion depth. -/
def natDigitsAux : Nat → Nat → List Char
  | 0, _ => []
  | fuel + 1, n =>
    if n = 0 then [] else natDigitsAux fuel (n / 10) ++ [Nat.digitChar (n % 10)]

/-- Decimal character list of a natural number, as JavaScript `String(n)`. -/
def natDecChars (n : Nat) : List Char :=
  if n = 0 then ['0'] else natDigitsAux n n

/-- Decimal character list of an integer, as JavaScript `String(i)`. -/
def intDecChars : Int → List Char
  | Int.ofNat n => natDecChars n
  | Int.negSucc n => '-' :: natDecChars (n + 1)

/-- JavaScript `String(i)` for an integer `i`. -/
def intDecStr (i : Int) : String :=
  ⟨intDecChars i⟩

/-! ## JavaScript array and object primitives -/

/-- JavaScript `Array.prototype.join()` at the character level:
interpose `','` between the elements. -/
def joinCommaChars : List (List Char) → List Char
  | [] => []
  | [s] => s
  | s :: rest => s ++ ',' :: joinCommaChars rest

/-- JavaScript `Array.prototype.join()` on a list of strings
(default separator `","`). -/
def jsJoin (l : List String) : String :=
  ⟨joinCommaChars (l.map String.data)⟩

/-- JavaScript `Array.prototype.join(sep)` with an explicit separator. -/
def jsJoinSep (sep : String) : List String → String
  | [] => ""
  | [s] => s
  | s :: rest => s ++ sep ++ jsJoinSep sep rest

/-- JavaScript string comparison: lexicographic on the code units.
`charsLe a b` is true iff `a` compares `<=` to `b`. -/
def charsLe : List Char → List Char → Bool
  | [], _ => true
  | _ :: _, [] => false
  | a :: as, b :: bs =>
    if a.toNat < b.toNat then true
    else if b.toNat < a.toNat then false
    else charsLe as bs

/-- JavaScript `a <= b` on strings. -/
def strLe (a b : String) : Bool :=
  charsLe a.data b.data

/-- The comparison JavaScript `sort()` uses, as a relation. -/
def strLeRel (a b : String) : Prop :=
  strLe a b = true

instance : DecidableRel strLeRel := fun a b => by
  unfold strLeRel; infer_instance

/-- Default JavaScript `Array.prototype.sort()` on strings:
lexicographic code-unit comparison (stable insertion sort). -/
def jsSortStrs (l : List String) : List String :=
  l.insertionSort strLeRel

/-- Default JavaScript `Array.prototype.sort()` on a number array:
elements are compared by their decimal string forms (stable insertion sort). -/
def jsSortInt (l : List Int) : List Int :=
  l.insertionSort (fun a b => strLeRel (intDecStr a) (intDecStr b))

/-- Reading a property of a JavaScript object used as a map: the object is an
association list in insertion order with unique keys. -/
def jsLookup {α β : Type} [DecidableEq α] (l : List (α × β)) (k : α) : Option β :=
  (l.find? (fun p => p.1 = k)).map (·.2)

/-- JavaScript `obj[k] = true` on an object used as a set of keys:
a fresh key is appended, an existing key is left in place. -/
def jsSetAdd {α : Type} [DecidableEq α] (l : List α) (a : α) : List α :=
  if a ∈ l then l else l ++ [a]

/-- JavaScript `delete obj[k]` on an object used as a set of keys. -/
def jsDelete {α : Type} [DecidableEq α] (l : List α) (a : α) : List α :=
  l.filter (· ≠ a)

/-- A `keyCodes` argument: `@param {number|number[]}` — a single key code or
an array of key codes. -/
inductive KeyCodes : Type
  | single (c : Int)
  | list (cs : List Int)
deriving DecidableEq

/-- Modelled from the spec: `toList` from `./array.js`, which is imported by
both keyboard trackers but absent from the snapshot.  Per the spec
(`keyCodes` may be a single code or a list) and the defensive copy
`[...toList(keyCodes)]` in the part_003 revision, it returns a list argument
itself (same array reference) and wraps a single code in a fresh array. -/
def toList : KeyCodes → List Int
  | KeyCodes.single c => [c]
  | KeyCodes.list cs => cs

example : jsSortInt [80, 9] = [80, 9] := by decide
example : jsSortInt [9, 80] = [80, 9] := by decide
example : jsSortInt [80, -17] = [-17, 80] := by decide
example : jsJoin [intDecStr 80, intDecStr 9] = "80,9" := by decide
example : intDecStr (-17) = "-17" := by decide

/-! ## Key tables (`src/constants.js`) and `swapKeyWithValue` (`src/object.js`) -/

/-- The `KEY` constant of `src/constants.js` as an association list of
`Event.code` name and key code, in source order.  The canonical internal
control code `KEY.Ctrl` is the non-existing key code `-17`. -/
def KEY.table : List (String × Int) := [
  ("UNDEFINED", -1),
  ("LEFT_CLICK", 0),
  ("MIDDLE_CLICK", 1),
  ("RIGHT_CLICK", 2),
  ("Ctrl", -17),
  ("Cancel", 3),
  ("Help", 6),
  ("Backspace", 8),
  ("Tab", 9),
  ("Clear", 12),
  ("Enter", 13),
  ("ShiftLeft", 16),
  ("ShiftRight", 16),
  ("Shift", 16),
  ("ControlLeft", 17),
  ("ControlRight", 17),
  ("Control", 17),
  ("AltLeft", 18),
  ("AltRight", 18),
  ("Alt", 18),
  ("Pause", 19),
  ("CapsLock", 20),
  ("Escape", 27),
  ("Space", 32),
  ("PageUp", 33),
  ("PageDown", 34),
  ("End", 35),
  ("Home", 36),
  ("ArrowLeft", 37),
  ("ArrowUp", 38),
  ("ArrowRight", 39),
  ("ArrowDown", 40),
  ("PrintScreen", 44),
  ("Insert", 45),
  ("Delete", 46),
  ("Equal", 187),
  ("Minus", 189),
  ("MetaLeft", 91),
  ("MetaRight", 93),
  ("_0", 48),
  ("_1", 49),
  ("_2", 50),
  ("_3", 51),
  ("_4", 52),
  ("_5", 53),
  ("_6", 54),
  ("_7", 55),
  ("_8", 56),
  ("_9", 57),
  ("0", 48),
  ("1", 49),
  ("2", 50),
  ("3", 51),
  ("4", 52),
  ("5", 53),
  ("6", 54),
  ("7", 55),
  ("8", 56),
  ("9", 57),
  ("Digit0", 48),
  ("Digit1", 49),
  ("Digit2", 50),
  ("Digit3", 51),
  ("Digit4", 52),
  ("Digit5", 53),
  ("Digit6", 54),
  ("Digit7", 55),
  ("Digit8", 56),
  ("Digit9", 57),
  ("a", 65),
  ("b", 66),
  ("c", 67),
  ("d", 68),
  ("e", 69),
  ("f", 70),
  ("g", 71),
  ("h", 72),
  ("i", 73),
  ("j", 74),
  ("k", 75),
  ("l", 76),
  ("m", 77),
  ("n", 78),
  ("o", 79),
  ("p", 80),
  ("q", 81),
  ("r", 82),
  ("s", 83),
  ("t", 84),
  ("u", 85),
  ("v", 86),
  ("w", 87),
  ("x", 88),
  ("y", 89),
  ("z", 90),
  ("KeyA", 65),
  ("KeyB", 66),
  ("KeyC", 67),
  ("KeyD", 68),
  ("KeyE", 69),
  ("KeyF", 70),
  ("KeyG", 71),
  ("KeyH", 72),
  ("KeyI", 73),
  ("KeyJ", 74),
  ("KeyK", 75),
  ("KeyL", 76),
  ("KeyM", 77),
  ("KeyN", 78),
  ("KeyO", 79),
  ("KeyP", 80),
  ("KeyQ", 81),
  ("KeyR", 82),
  ("KeyS", 83),
  ("KeyT", 84),
  ("KeyU", 85),
  ("KeyV", 86),
  ("KeyW", 87),
  ("KeyX", 88),
  ("KeyY", 89),
  ("KeyZ", 90)]

def KEY.Ctrl : Int := -17
def KEY.Control : Int := 17
def KEY.MetaLeft : Int := 91
def KEY.MetaRight : Int := 93
def KEY.Tab : Int := 9
def KEY.p : Int := 80
def KEY.LEFT_CLICK : Int := 0

/-- `TIME_DURATION_INSTANT` from `src/constants.js`: a delay in milliseconds
that is perceived to be instant to humans. -/
def TIME_DURATION_INSTANT : Nat := 200

/-- `swapKeyWithValue(KEY)` read at a key code: the name stored last for that
code wins (`result[obj[key]] = key` overwrites earlier writes).  For this
table the last writer in source order and in JavaScript enumeration order
coincide. -/
def keyByCode (c : Int) : Option String :=
  (KEY.table.reverse.find? (fun pr => pr.2 = c)).map (fun pr => pr.1)

example : keyByCode 80 = some "KeyP" := by decide
example : keyByCode (-17) = some "Ctrl" := by decide
example : keyByCode 9 = some "Tab" := by decide
example : keyByCode 16 = some "Shift" := by decide
example : keyByCode 48 = some "Digit0" := by decide
example : keyByCode 5000 = none := by decide

/-! ## Shared keyboard event model -/

/-- A `KeyboardEvent` as the trackers use it: the `localName` of
`event.target`, the raw `event.keyCode`, and the `event.key` string. -/
structure KEvent where
  targetLocalName : String
  keyCode : Int
  key : String
deriving DecidableEq

/-- The diagnostic named in a conflict message: `id: id || callback`
falls back to the callback when the group id is absent (or falsy). -/
inductive TakenBy : Type
  | byId (s : String)
  | byCallback (c : Nat)
deriving DecidableEq

/-- `id || callback` for a group id modelled as an optional string. -/
def idOrCallback (id : Option String) (cb : Nat) : TakenBy :=
  match id with
  | some s => if s = "" then TakenBy.byCallback cb else TakenBy.byId s
  | none => TakenBy.byCallback cb

/-- Errors thrown by `addShortcut`: the localized duplicate-shortcut `Error`
carrying the rendered key names and the existing owner, or the `TypeError`
JavaScript raises when `.map` is called on a number. -/
inductive KErr : Type
  | conflict (value : String) (takenBy : TakenBy)
  | typeError
deriving DecidableEq

/-- Outcome of a JavaScript call: a returned value or a thrown error. -/
inductive JsOutcome (ε α : Type) : Type
  | thrown (e : ε)
  | returned (v : α)
deriving DecidableEq

/-- Result of a registration call: the returned value or the thrown error,
the registry after the call, and the content of the caller's `keyCodes`
argument after the call (JavaScript arrays are passed by reference and
`sort()` mutates in place). -/
structure AddResult (σ : Type) where
  result : JsOutcome KErr Nat
  state : σ
  keyCodesAfter : KeyCodes
deriving DecidableEq

/-- The `#ctrlKeyCode` map both trackers build once from `isMacLike`:
`{MetaLeft: Ctrl, MetaRight: Ctrl}` on Mac-like platforms and
`{Control: Ctrl}` elsewhere. -/
def ctrlKeyCode (macLike : Bool) (code : Int) : Option Int :=
  if macLike then
    if code = KEY.MetaLeft ∨ code = KEY.MetaRight then some KEY.Ctrl else none
  else
    if code = KEY.Control then some KEY.Ctrl else none

/-- `this.#ctrlKeyCode[event.keyCode] || event.keyCode`. -/
def normalizeKeyCode (macLike : Bool) (code : Int) : Int :=
  (ctrlKeyCode macLike code).getD code

/-- `this.#keyByCode[keyCode]` used as a property name: an undefined lookup
is stringified to `"undefined"` by the property write. -/
def pressedName (c : Int) : String :=
  (keyByCode c).getD "undefined"

/-- `Object.keys(pressedMap).sort().join()`: object keys are decimal strings
of the stored codes; JavaScript enumerates them in its own order and
`sort()` then orders them lexicographically, so the result only depends on
the set of codes. -/
def pressedCombo (pkc : List Int) : String :=
  jsJoin (jsSortStrs (pkc.map intDecStr))

/-- `comboKey` of a key-code array: `keyCodes.sort().join()`
(JavaScript default sort, i.e. by decimal string form). -/
def comboKeyOf (cs : List Int) : String :=
  jsJoin ((jsSortInt cs).map intDecStr)

/-! ## `Keyboard` of `src/keyboard.js` -/

/-- A `#shortcuts` entry of `src/keyboard.js`: `{callback, id}`, keyed by the
sorted-joined key codes. -/
structure Keyboard.Entry where
  callback : Nat
  id : Option String
deriving DecidableEq

/-- The `Keyboard` tracker state of `src/keyboard.js`: `pressed` (map of key
names), `keyCode` (map of key codes), the ignore set, the platform flag that
built `#ctrlKeyCode`, and the `#shortcuts` object. -/
structure Keyboard where
  pressed : List String
  keyCode : List Int
  ignoreEventsFrom : List String
  macLike : Bool
  shortcuts : List (String × Keyboard.Entry)
deriving DecidableEq

/-- Default `ignoreEventsFrom` of the keyboard trackers:
`{input: true, textarea: true}`. -/
def keyboardIgnoreDefault : List String := ["input", "textarea"]

/-- `Keyboard.addShortcut` of `src/keyboard.js`.
`toList(keyCodes).sort().join()` sorts the caller's array in place; on a
duplicate, the message value is `keyCodes.map(keyCode => #keyByCode[keyCode])`
— a `TypeError` when `keyCodes` is a single number. -/
def Keyboard.addShortcut (kb : Keyboard) (callback : Nat) (keyCodes : KeyCodes)
    (id : Option String) : AddResult Keyboard :=
  let sorted := jsSortInt (toList keyCodes)
  let after := match keyCodes with
    | KeyCodes.single c => KeyCodes.single c
    | KeyCodes.list _ => KeyCodes.list sorted
  let ks := jsJoin (sorted.map intDecStr)
  match jsLookup kb.shortcuts ks with
  | some e =>
    match keyCodes with
    | KeyCodes.single _ => ⟨JsOutcome.thrown KErr.typeError, kb, after⟩
    | KeyCodes.list _ =>
      let value := jsJoinSep " + " (sorted.map (fun c => (keyByCode c).getD ""))
      ⟨JsOutcome.thrown (KErr.conflict value (idOrCallback e.id e.callback)), kb, after⟩
  | none =>
    ⟨JsOutcome.returned callback,
     { kb with shortcuts := kb.shortcuts ++ [(ks, ⟨callback, id⟩)] }, after⟩

/-- `Keyboard.#onPress` of `src/keyboard.js`: ignore-set check, normalize the
code, record it in both pressed maps, then dispatch the exact sorted-joined
match if any.  Returns the new state and the handler invocations. -/
def Keyboard.onPress (kb : Keyboard) (ev : KEvent) :
    Keyboard × List (Nat × KEvent) :=
  if kb.ignoreEventsFrom.contains ev.targetLocalName then (kb, [])
  else
    let keyCode := normalizeKeyCode kb.macLike ev.keyCode
    let kb1 := { kb with
      pressed := jsSetAdd kb.pressed (pressedName keyCode),
      keyCode := jsSetAdd kb.keyCode keyCode }
    let keyCodes := pressedCombo kb1.keyCode
    match jsLookup kb1.shortcuts keyCodes with
    | some e => (kb1, [(e.callback, ev)])
    | none => (kb1, [])

/-- `Keyboard.#onRelease` of `src/keyboard.js`: no ignore-set check; on
Mac-like platforms a `Meta` release clears both pressed maps entirely,
otherwise the normalized code is deleted from both. -/
def Keyboard.onRelease (kb : Keyboard) (ev : KEvent) : Keyboard :=
  if ev.key = "Meta" ∧ kb.macLike then
    { kb with pressed := [], keyCode := [] }
  else
    let keyCode := normalizeKeyCode kb.macLike ev.keyCode
    { kb with
      pressed := jsDelete kb.pressed (pressedName keyCode),
      keyCode := jsDelete kb.keyCode keyCode }

/-! ## `Keyboard` of `src/unnamed/part_003` (the revised tracker) -/

/-- A `_shortcuts` entry of the part_003 revision: `{callback, keys, id}`,
keyed by ``​`${keys}_${id}` ``. -/
structure KeyboardB.Entry where
  callback : Nat
  keys : String
  id : Option String
deriving DecidableEq

/-- The revised tracker state: `pressed`, `pressedKeyCode`, the ignore set,
the platform flag, and `_shortcuts`. -/
structure KeyboardB where
  pressed : List String
  pressedKeyCode : List Int
  ignoreEventsFrom : List String
  macLike : Bool
  shortcuts : List (String × KeyboardB.Entry)
deriving DecidableEq

/-- Template-literal rendering of the optional group id:
`undefined` interpolates as `"undefined"`. -/
def jsTemplateOpt : Option String → String
  | some s => s
  | none => "undefined"

/-- `Keyboard.addShortcut` of the part_003 revision: the key codes are copied
(`[...toList(keyCodes)]`) before sorting, the registry key is
``​`${keys}_${id}` ``, and the duplicate message maps over the caller's
(unsorted) list via `toList`. -/
def KeyboardB.addShortcut (kb : KeyboardB) (callback : Nat) (keyCodes : KeyCodes)
    (id : Option String) : AddResult KeyboardB :=
  let keys := jsJoin ((jsSortInt (toList keyCodes)).map intDecStr)
  let keysId := keys ++ "_" ++ jsTemplateOpt id
  match jsLookup kb.shortcuts keysId with
  | some e =>
    let value := jsJoinSep " + " ((toList keyCodes).map (fun c => (keyByCode c).getD ""))
    ⟨JsOutcome.thrown (KErr.conflict value (idOrCallback e.id e.callback)), kb, keyCodes⟩
  | none =>
    ⟨JsOutcome.returned callback,
     { kb with shortcuts := kb.shortcuts ++ [(keysId, ⟨callback, keys, id⟩)] }, keyCodes⟩

/-- `Keyboard._onPress` of the part_003 revision.  All entries whose `keys`
equal the sorted-joined pressed codes are collected and invoked; `Date.now()`
is read immediately before the invocations, and if the wall-clock time the
handlers took exceeds `TIME_DURATION_INSTANT` both pressed maps are cleared
entirely.  `dur` gives the running time of each handler by its id. -/
def KeyboardB.onPress (kb : KeyboardB) (ev : KEvent) (dur : Nat → Nat) :
    KeyboardB × List (Nat × KEvent) :=
  if kb.ignoreEventsFrom.contains ev.targetLocalName then (kb, [])
  else
    let keyCode := normalizeKeyCode kb.macLike ev.keyCode
    let pressed1 := jsSetAdd kb.pressed (pressedName keyCode)
    let pkc1 := jsSetAdd kb.pressedKeyCode keyCode
    let keyCodes := pressedCombo pkc1
    let callbacks :=
      (kb.shortcuts.filter (fun pr => pr.2.keys = keyCodes)).map (fun pr => pr.2.callback)
    if callbacks.isEmpty then
      ({ kb with pressed := pressed1, pressedKeyCode := pkc1 }, [])
    else
      let elapsed := (callbacks.map dur).sum
      let calls := callbacks.map (fun cb => (cb, ev))
      if TIME_DURATION_INSTANT < elapsed then
        ({ kb with pressed := [], pressedKeyCode := [] }, calls)
      else
        ({ kb with pressed := pressed1, pressedKeyCode := pkc1 }, calls)

/-- `Keyboard._onRelease` of the part_003 revision: like `src/keyboard.js`
but guarded by the ignore set. -/
def KeyboardB.onRelease (kb : KeyboardB) (ev : KEvent) : KeyboardB :=
  if kb.ignoreEventsFrom.contains ev.targetLocalName then kb
  else if ev.key = "Meta" ∧ kb.macLike then
    { kb with pressed := [], pressedKeyCode := [] }
  else
    let keyCode := normalizeKeyCode kb.macLike ev.keyCode
    { kb with
      pressed := jsDelete kb.pressed (pressedName keyCode),
      pressedKeyCode := jsDelete kb.pressedKeyCode keyCode }

example :
    (Keyboard.addShortcut ⟨[], [], keyboardIgnoreDefault, false, []⟩ 1
      (KeyCodes.list [KEY.Ctrl, KEY.p]) (some "PenTool")).result
      = JsOutcome.returned 1 := by decide

/-! ## `Pointer` of `src/pointer.js` -/

/-- A `PointerEvent` as the tracker uses it: the button, the `localName` of
`event.target`, the chain of elements from `event.target` up to the root
(each element is an opaque handle), and an identity tag so distinct events
can be told apart in the call trace. -/
structure PEvent where
  button : Int
  targetLocalName : String
  targetChain : List Nat
  tag : Nat
deriving DecidableEq

/-- A `_dragNodes` entry:
`{id, onDrag, onDragStart, onDragEnd, onDragDown, onDragUp}`;
each optional callback is an opaque id. -/
structure DragEntry where
  id : Option String
  onDrag : Option Nat
  onDragStart : Option Nat
  onDragEnd : Option Nat
  onDragDown : Option Nat
  onDragUp : Option Nat
deriving DecidableEq

/-- One recorded handler invocation of the drag state machine: which
callback slot fired, the callback id, and the event it received. -/
inductive Call : Type
  | dragDown (cb : Nat) (e : PEvent)
  | dragStart (cb : Nat) (e : PEvent)
  | drag (cb : Nat) (e : PEvent)
  | dragEnd (cb : Nat) (e : PEvent)
  | dragUp (cb : Nat) (e : PEvent)
deriving DecidableEq

/-- Errors raised from the pointer event path.  `typeError` is the
`TypeError` JavaScript throws when destructuring the `undefined` that
`Map.get` returns for an unregistered node. -/
inductive PErr : Type
  | typeError
  | conflict (takenBy : TakenBy)
deriving DecidableEq

/-- The `Pointer` tracker state of `src/pointer.js`. -/
structure Pointer where
  ignoreEventsFrom : List String
  dragNodes : List (Nat × DragEntry)
  pointerDownEvent : Option PEvent
  pointerMoveCount : Nat
  subscribedNode : Option Nat
  hadDrag : Bool
  subscribedToMove : Bool
deriving DecidableEq

/-- Default `ignoreEventsFrom` of the pointer tracker:
`{html: true, body: true}`. -/
def pointerIgnoreDefault : List String := ["html", "body"]

/-- The fresh pointer tracker as constructed (`new Pointer()`); the
`pointerdown`/`pointerup` subscription itself is implicit in `deliver`. -/
def Pointer.init : Pointer :=
  ⟨pointerIgnoreDefault, [], none, 0, none, false, false⟩

/-- `id: id || onDrag || onDragStart || onDragEnd` in the duplicate-drag
message. -/
def dragTakenBy (e : DragEntry) : TakenBy :=
  match e.id with
  | some s => if s = "" then
      match e.onDrag.orElse (fun _ => e.onDragStart.orElse (fun _ => e.onDragEnd)) with
      | some cb => TakenBy.byCallback cb
      | none => TakenBy.byCallback 0
    else TakenBy.byId s
  | none =>
    match e.onDrag.orElse (fun _ => e.onDragStart.orElse (fun _ => e.onDragEnd)) with
    | some cb => TakenBy.byCallback cb
    | none => TakenBy.byCallback 0

/-- `Pointer.addDragBehavior`: fails when the node already has an entry,
otherwise stores the handlers under the node. -/
def Pointer.addDragBehavior (p : Pointer) (handlers : DragEntry) (node : Nat) :
    JsOutcome PErr Nat × Pointer :=
  match jsLookup p.dragNodes node with
  | some e => (JsOutcome.thrown (PErr.conflict (dragTakenBy e)), p)
  | none => (JsOutcome.returned node, { p with dragNodes := p.dragNodes ++ [(node, handlers)] })

/-- `Pointer.removeDragByNode`: `this._dragNodes.delete(node)`. -/
def Pointer.removeDragByNode (p : Pointer) (node : Nat) : Pointer :=
  { p with dragNodes := p.dragNodes.filter (fun pr => pr.1 ≠ node) }

/-- `Pointer.removeDragByCallback`: delete every entry whose `onDrag`,
`onDragStart` or `onDragEnd` equals the callback. -/
def Pointer.removeDragByCallback (p : Pointer) (cb : Nat) : Pointer :=
  { p with dragNodes := p.dragNodes.filter (fun pr =>
      ¬(pr.2.onDrag = some cb ∨ pr.2.onDragStart = some cb ∨ pr.2.onDragEnd = some cb)) }

/-- `Pointer.removeDragById`: delete every entry with the group id. -/
def Pointer.removeDragById (p : Pointer) (id : String) : Pointer :=
  { p with dragNodes := p.dragNodes.filter (fun pr => pr.2.id ≠ some id) }

/-- The ancestor walk of `_onPointerDown`: starting at `event.target`, while
the current node has a parent, look it up in `_dragNodes` and stop at the
first hit; the chain's last element (the root, having no `parentElement`) is
never tested. -/
def findDragNode (dragNodes : List (Nat × DragEntry)) : List Nat → Option (Nat × DragEntry)
  | [] => none
  | [_] => none
  | n :: rest =>
    match jsLookup dragNodes n with
    | some e => some (n, e)
    | none => findDragNode dragNodes rest

/-- `Pointer._onPointerDown`: left button only, ignore-set check, ancestor
walk; on a match fire `onDragDown`, remember the down event, reset the move
count, subscribe to move events and remember the node. -/
def Pointer.onPointerDown (p : Pointer) (ev : PEvent) : Pointer × List Call :=
  if ev.button ≠ KEY.LEFT_CLICK then (p, [])
  else if p.ignoreEventsFrom.contains ev.targetLocalName then (p, [])
  else
    match findDragNode p.dragNodes ev.targetChain with
    | none => (p, [])
    | some (n, handlers) =>
      ({ p with pointerDownEvent := some ev, pointerMoveCount := 0,
                subscribedToMove := true, subscribedNode := some n },
       match handlers.onDragDown with
       | some cb => [Call.dragDown cb ev]
       | none => [])

/-- `Pointer._onPointerMove`: the first move after the down is consumed
silently; afterwards the subscribed node's entry is destructured (throwing
a `TypeError` if it was removed), `onDragStart` fires once with the
remembered down event, then `onDrag` fires with the move event. -/
def Pointer.onPointerMove (p : Pointer) (ev : PEvent) :
    JsOutcome PErr (Pointer × List Call) :=
  if p.pointerMoveCount = 0 then
    JsOutcome.returned ({ p with pointerMoveCount := 1 }, [])
  else
    match p.subscribedNode.bind (jsLookup p.dragNodes) with
    | none => JsOutcome.thrown PErr.typeError
    | some handlers =>
      let startStep : Pointer × List Call :=
        match p.pointerDownEvent with
        | some downEv =>
          ({ p with pointerDownEvent := none, hadDrag := true },
           match handlers.onDragStart with
           | some cb => [Call.dragStart cb downEv]
           | none => [])
        | none => (p, [])
      JsOutcome.returned (startStep.1,
        startStep.2 ++
          match handlers.onDrag with
          | some cb => [Call.drag cb ev]
          | none => [])

/-- `Pointer._onPointerUp`: if a node is subscribed, destructure its entry
(throwing a `TypeError` if it was removed), stop listening for moves, fire
`onDragEnd` when a real drag happened, then always fire `onDragUp`. -/
def Pointer.onPointerUp (p : Pointer) (ev : PEvent) :
    JsOutcome PErr (Pointer × List Call) :=
  match p.subscribedNode with
  | none => JsOutcome.returned (p, [])
  | some n =>
    match jsLookup p.dragNodes n with
    | none => JsOutcome.thrown PErr.typeError
    | some handlers =>
      let p1 := { p with subscribedToMove := false, subscribedNode := none }
      let endStep : Pointer × List Call :=
        if p1.hadDrag then
          ({ p1 with hadDrag := false },
           match handlers.onDragEnd with
           | some cb => [Call.dragEnd cb ev]
           | none => [])
        else (p1, [])
      JsOutcome.returned (endStep.1,
        endStep.2 ++
          match handlers.onDragUp with
          | some cb => [Call.dragUp cb ev]
          | none => [])

/-- A raw pointer event as the host delivers it. -/
inductive HostEv : Type
  | pdown (e : PEvent)
  | pmove (e : PEvent)
  | pup (e : PEvent)
deriving DecidableEq

/-- Host delivery: `pointerdown` and `pointerup` listeners are attached for
the tracker's lifetime; `pointermove` reaches the tracker only while it is
subscribed to move events. -/
def Pointer.deliver (p : Pointer) : HostEv → JsOutcome PErr (Pointer × List Call)
  | HostEv.pdown e => JsOutcome.returned (p.onPointerDown e)
  | HostEv.pmove e =>
    if p.subscribedToMove then p.onPointerMove e else JsOutcome.returned (p, [])
  | HostEv.pup e => p.onPointerUp e

/-- Deliver a sequence of host events, accumulating the call trace;
the first thrown error aborts the run. -/
def Pointer.run (p : Pointer) : List HostEv → JsOutcome PErr (Pointer × List Call)
  | [] => JsOutcome.returned (p, [])
  | e :: rest =>
    match p.deliver e with
    | JsOutcome.thrown err => JsOutcome.thrown err
    | JsOutcome.returned (p1, calls) =>
      match p1.run rest with
      | JsOutcome.thrown err => JsOutcome.thrown err
      | JsOutcome.returned (p2, calls2) => JsOutcome.returned (p2, calls ++ calls2)

/-- Count the `onDragStart` invocations in a trace. -/
def countDragStart (tr : List Call) : Nat :=
  (tr.filter (fun c => match c with | Call.dragStart _ _ => true | _ => false)).length

/-- Count the `onDrag` invocations in a trace. -/
def countDrag (tr : List Call) : Nat :=
  (tr.filter (fun c => match c with | Call.drag _ _ => true | _ => false)).length

/-- Count the `onDragEnd` invocations in a trace. -/
def countDragEnd (tr : List Call) : Nat :=
  (tr.filter (fun c => match c with | Call.dragEnd _ _ => true | _ => false)).length

/-- Count the `onDragUp` invocations in a trace. -/
def countDragUp (tr : List Call) : Nat :=
  (tr.filter (fun c => match c with | Call.dragUp _ _ => true | _ => false)).length

/-- Count the `onDragDown` invocations in a trace. -/
def countDragDown (tr : List Call) : Nat :=
  (tr.filter (fun c => match c with | Call.dragDown _ _ => true | _ => false)).length

/-! ## Order properties of the JavaScript string comparison -/

theorem charToNat_inj {a b : Char} (h : a.toNat = b.toNat) : a = b := by
  apply Char.ext
  exact UInt32.ext h

theorem charsLe_total : ∀ a b : List Char, charsLe a b = true ∨ charsLe b a = true := by
  intro a
  induction a with
  | nil => intro b; left; rfl
  | cons x xs ih =>
    intro b
    cases b with
    | nil => right; rfl
    | cons y ys =>
      simp only [charsLe]
      rcases Nat.lt_trichotomy x.toNat y.toNat with h | h | h
      · left; simp [h]
      · have h1 : ¬x.toNat < y.toNat := by omega
        have h2 : ¬y.toNat < x.toNat := by omega
        simpa [h1, h2] using ih ys
      · right; simp [h]

theorem charsLe_trans : ∀ {a b c : List Char},
    charsLe a b = true → charsLe b c = true → charsLe a c = true := by
  intro a
  induction a with
  | nil => intro b c _ _; rfl
  | cons x xs ih =>
    intro b c hab hbc
    cases b with
    | nil => simp [charsLe] at hab
    | cons y ys =>
      cases c with
      | nil => simp [charsLe] at hbc
      | cons z zs =>
        simp only [charsLe] at hab hbc ⊢
        by_cases hxy : x.toNat < y.toNat
        · by_cases hyz : y.toNat < z.toNat
          · have : x.toNat < z.toNat := by omega
            simp [this]
          · have hzy : ¬z.toNat < y.toNat := by
              intro hc
              simp [hyz, hc] at hbc
            have : x.toNat < z.toNat := by omega
            simp [this]
        · have hyx : ¬y.toNat < x.toNat := by
            intro hc
            simp [hxy, hc] at hab
          by_cases hyz : y.toNat < z.toNat
          · have : x.toNat < z.toNat := by omega
            simp [this]
          · have hzy : ¬z.toNat < y.toNat := by
              intro hc
              simp [hyz, hc] at hbc
            have h1 : ¬x.toNat < z.toNat := by omega
            have h2 : ¬z.toNat < x.toNat := by omega
            simp only [if_neg hxy, if_neg hyx] at hab
            simp only [if_neg hyz, if_neg hzy] at hbc
            simp only [if_neg h1, if_neg h2]
            exact ih hab hbc

theorem charsLe_antisymm : ∀ {a b : List Char},
    charsLe a b = true → charsLe b a = true → a = b := by
  intro a
  induction a with
  | nil =>
    intro b _ hba
    cases b with
    | nil => rfl
    | cons y ys => simp [charsLe] at hba
  | cons x xs ih =>
    intro b hab hba
    cases b with
    | nil => simp [charsLe] at hab
    | cons y ys =>
      simp only [charsLe] at hab hba
      by_cases hxy : x.toNat < y.toNat
      · have : ¬y.toNat < x.toNat := by omega
        simp [hxy, this] at hba
      · by_cases hyx : y.toNat < x.toNat
        · simp [hxy, hyx] at hab
        · have hx : x = y := charToNat_inj (by omega)
          simp only [if_neg hxy, if_neg hyx] at hab
          simp only [if_neg hyx, if_neg hxy] at hba
          rw [hx, ih hab hba]

theorem strEqOfData {a b : String} (h : a.data = b.data) : a = b := by
  cases a with
  | mk da =>
    cases b with
    | mk db =>
      simp only at h
      rw [h]

instance : IsTotal String strLeRel :=
  ⟨fun a b => charsLe_total a.data b.data⟩

instance : IsTrans String strLeRel :=
  ⟨fun _ _ _ hab hbc => charsLe_trans hab hbc⟩

instance : IsAntisymm String strLeRel :=
  ⟨fun _ _ hab hba => strEqOfData (charsLe_antisymm hab hba)⟩

theorem jsSortStrs_perm (l : List String) : List.Perm (jsSortStrs l) l :=
  List.perm_insertionSort _ _

theorem jsSortStrs_eq_of_perm {l₁ l₂ : List String} (h : List.Perm l₁ l₂) :
    jsSortStrs l₁ = jsSortStrs l₂ :=
  List.eq_of_perm_of_sorted
    ((List.perm_insertionSort _ _).trans (h.trans (List.perm_insertionSort _ _).symm))
    (List.sorted_insertionSort _ _) (List.sorted_insertionSort _ _)

theorem orderedInsert_map {α β : Type} (f : α → β) (r : β → β → Prop) [DecidableRel r]
    (a : α) : ∀ l : List α,
    (l.orderedInsert (fun x y => r (f x) (f y)) a).map f = (l.map f).orderedInsert r (f a) := by
  intro l
  induction l with
  | nil => rfl
  | cons b bs ih =>
    simp only [List.orderedInsert, List.map_cons]
    by_cases h : r (f a) (f b)
    · rw [if_pos h, if_pos h]
      simp
    · rw [if_neg h, if_neg h]
      simp only [List.map_cons, ih]

theorem insertionSort_map {α β : Type} (f : α → β) (r : β → β → Prop) [DecidableRel r] :
    ∀ l : List α,
    (l.insertionSort (fun x y => r (f x) (f y))).map f = (l.map f).insertionSort r := by
  intro l
  induction l with
  | nil => rfl
  | cons b bs ih =>
    simp only [List.insertionSort, List.map_cons]
    rw [orderedInsert_map f r b, ih]

theorem jsSortInt_map (cs : List Int) :
    (jsSortInt cs).map intDecStr = jsSortStrs (cs.map intDecStr) :=
  insertionSort_map intDecStr strLeRel cs

theorem comboKeyOf_eq_sorted (cs : List Int) :
    comboKeyOf cs = jsJoin (jsSortStrs (cs.map intDecStr)) := by
  unfold comboKeyOf
  rw [jsSortInt_map]

theorem comboKeyOf_perm {cs cs' : List Int} (h : List.Perm cs cs') :
    comboKeyOf cs = comboKeyOf cs' := by
  rw [comboKeyOf_eq_sorted, comboKeyOf_eq_sorted]
  exact congrArg jsJoin (jsSortStrs_eq_of_perm (h.map intDecStr))

/-! ## Properties of the decimal rendering -/

/-- Numeric value of a decimal digit character. -/
def digitVal (c : Char) : Nat := c.toNat - 48

/-- Numeric value of a big-endian decimal character list. -/
def charsVal (l : List Char) : Nat :=
  l.foldl (fun a c => 10 * a + digitVal c) 0

theorem digitVal_digitChar {d : Nat} (h : d < 10) : digitVal (Nat.digitChar d) = d := by
  interval_cases d <;> decide

theorem digitChar_range {d : Nat} (h : d < 10) :
    48 ≤ (Nat.digitChar d).toNat ∧ (Nat.digitChar d).toNat ≤ 57 := by
  interval_cases d <;> decide

theorem charsVal_append_digit (l : List Char) (c : Char) :
    charsVal (l ++ [c]) = 10 * charsVal l + digitVal c := by
  unfold charsVal
  rw [List.foldl_append]
  rfl

theorem charsVal_natDigitsAux : ∀ (f n : Nat), n ≤ f →
    charsVal (natDigitsAux f n) = n := by
  intro f
  induction f with
  | zero =>
    intro n hn
    have : n = 0 := Nat.le_zero.mp hn
    subst this
    rfl
  | succ f ih =>
    intro n hn
    by_cases h0 : n = 0
    · subst h0; simp [natDigitsAux, charsVal]
    · have hlt : n / 10 < n := Nat.div_lt_self (Nat.pos_of_ne_zero h0) (by omega)
      have hle : n / 10 ≤ f := by omega
      simp only [natDigitsAux, if_neg h0]
      rw [charsVal_append_digit, ih _ hle, digitVal_digitChar (Nat.mod_lt _ (by omega))]
      omega

theorem charsVal_natDecChars (n : Nat) : charsVal (natDecChars n) = n := by
  unfold natDecChars
  by_cases h0 : n = 0
  · subst h0; rfl
  · rw [if_neg h0]
    exact charsVal_natDigitsAux n n (Nat.le_refl n)

theorem natDecChars_inj {a b : Nat} (h : natDecChars a = natDecChars b) : a = b := by
  have := congrArg charsVal h
  rwa [charsVal_natDecChars, charsVal_natDecChars] at this

theorem natDigitsAux_digits : ∀ (f n : Nat), ∀ c ∈ natDigitsAux f n,
    48 ≤ c.toNat ∧ c.toNat ≤ 57 := by
  intro f
  induction f with
  | zero => intro n c hc; simp [natDigitsAux] at hc
  | succ f ih =>
    intro n c hc
    by_cases h0 : n = 0
    · subst h0; simp [natDigitsAux] at hc
    · simp only [natDigitsAux, if_neg h0, List.mem_append, List.mem_singleton] at hc
      rcases hc with hc | hc
      · exact ih _ c hc
      · subst hc; exact digitChar_range (Nat.mod_lt _ (by omega))

theorem natDecChars_digits (n : Nat) : ∀ c ∈ natDecChars n,
    48 ≤ c.toNat ∧ c.toNat ≤ 57 := by
  unfold natDecChars
  by_cases h0 : n = 0
  · subst h0; intro c hc; simp at hc; subst hc; decide
  · rw [if_neg h0]; exact natDigitsAux_digits n n

theorem natDecChars_ne_nil (n : Nat) : natDecChars n ≠ [] := by
  unfold natDecChars
  by_cases h0 : n = 0
  · subst h0; simp
  · rw [if_neg h0]
    obtain ⟨m, hm⟩ := Nat.exists_eq_succ_of_ne_zero h0
    conv_lhs => rw [hm]
    simp [natDigitsAux, show n ≠ 0 from h0, hm.symm]

theorem intDecChars_ne_nil (i : Int) : intDecChars i ≠ [] := by
  cases i with
  | ofNat n => exact natDecChars_ne_nil n
  | negSucc n => simp [intDecChars]

theorem intDecChars_no_comma (i : Int) : ',' ∉ intDecChars i := by
  cases i with
  | ofNat n =>
    intro hc
    have := natDecChars_digits n ',' hc
    revert this; decide
  | negSucc n =>
    intro hc
    simp only [intDecChars, List.mem_cons] at hc
    rcases hc with hc | hc
    · revert hc; decide
    · have := natDecChars_digits (n + 1) ',' hc
      revert this; decide

theorem intDecChars_inj {i j : Int} (h : intDecChars i = intDecChars j) : i = j := by
  cases i with
  | ofNat a =>
    cases j with
    | ofNat b =>
      simp only [intDecChars] at h
      rw [natDecChars_inj h]
    | negSucc b =>
      exfalso
      simp only [intDecChars] at h
      have hm : '-' ∈ natDecChars a := by rw [h]; exact List.mem_cons_self _ _
      have := natDecChars_digits a '-' hm
      revert this; decide
  | negSucc a =>
    cases j with
    | ofNat b =>
      exfalso
      simp only [intDecChars] at h
      have hm : '-' ∈ natDecChars b := by rw [← h]; exact List.mem_cons_self _ _
      have := natDecChars_digits b '-' hm
      revert this; decide
    | negSucc b =>
      simp only [intDecChars, List.cons.injEq] at h
      have hab := natDecChars_inj h.2
      have : a = b := by omega
      rw [this]

theorem intDecStr_inj {i j : Int} (h : intDecStr i = intDecStr j) : i = j := by
  apply intDecChars_inj
  have := congrArg String.data h
  simpa [intDecStr] using this

theorem intDecStr_data (i : Int) : (intDecStr i).data = intDecChars i := rfl

/-! ## Injectivity of the comma join on decimal components -/

theorem joinCommaChars_ne_nil (s : List Char) (rest : List (List Char)) (hs : s ≠ []) :
    joinCommaChars (s :: rest) ≠ [] := by
  cases rest with
  | nil => simpa [joinCommaChars] using hs
  | cons u us => simp [joinCommaChars]

theorem commaSplit : ∀ {s t a b : List Char}, ',' ∉ s → ',' ∉ t →
    s ++ ',' :: a = t ++ ',' :: b → s = t ∧ a = b := by
  intro s
  induction s with
  | nil =>
    intro t a b _ ht h
    cases t with
    | nil => simpa using h
    | cons c ts =>
      exfalso
      simp only [List.nil_append, List.cons_append, List.cons.injEq] at h
      exact ht (h.1 ▸ List.mem_cons_self _ _)
  | cons c ss ih =>
    intro t a b hs ht h
    cases t with
    | nil =>
      exfalso
      simp only [List.cons_append, List.nil_append, List.cons.injEq] at h
      exact hs (h.1 ▸ List.mem_cons_self _ _)
    | cons d ts =>
      simp only [List.cons_append, List.cons.injEq] at h
      have hs' : ',' ∉ ss := fun hc => hs (List.mem_cons_of_mem _ hc)
      have ht' : ',' ∉ ts := fun hc => ht (List.mem_cons_of_mem _ hc)
      obtain ⟨h1, h2⟩ := ih hs' ht' h.2
      exact ⟨by rw [h.1, h1], h2⟩

theorem joinCommaChars_inj : ∀ (l₁ l₂ : List (List Char)),
    (∀ s ∈ l₁, s ≠ [] ∧ ',' ∉ s) → (∀ s ∈ l₂, s ≠ [] ∧ ',' ∉ s) →
    joinCommaChars l₁ = joinCommaChars l₂ → l₁ = l₂
  | [], [], _, _, _ => rfl
  | [], t :: ts, _, h₂, h => by
    exfalso
    exact joinCommaChars_ne_nil t ts (h₂ t (List.mem_cons_self _ _)).1 h.symm
  | s :: ss, [], h₁, _, h => by
    exfalso
    exact joinCommaChars_ne_nil s ss (h₁ s (List.mem_cons_self _ _)).1 h
  | [s], [t], _, _, h => by
    simpa [joinCommaChars] using h
  | [s], t :: u :: ts, h₁, h₂, h => by
    exfalso
    simp only [joinCommaChars] at h
    have hc : ',' ∈ s := by
      rw [h]
      exact List.mem_append_right _ (List.mem_cons_self _ _)
    exact (h₁ s (List.mem_cons_self _ _)).2 hc
  | s :: u :: ss, [t], h₁, h₂, h => by
    exfalso
    simp only [joinCommaChars] at h
    have hc : ',' ∈ t := by
      rw [← h]
      exact List.mem_append_right _ (List.mem_cons_self _ _)
    exact (h₂ t (List.mem_cons_self _ _)).2 hc
  | s :: u :: ss, t :: v :: ts, h₁, h₂, h => by
    simp only [joinCommaChars] at h
    obtain ⟨hst, hrest⟩ := commaSplit (h₁ s (List.mem_cons_self _ _)).2
      (h₂ t (List.mem_cons_self _ _)).2 h
    have htail := joinCommaChars_inj (u :: ss) (v :: ts)
      (fun x hx => h₁ x (List.mem_cons_of_mem _ hx))
      (fun x hx => h₂ x (List.mem_cons_of_mem _ hx)) hrest
    rw [hst, htail]

theorem jsJoin_inj {l₁ l₂ : List String}
    (h₁ : ∀ s ∈ l₁, s.data ≠ [] ∧ ',' ∉ s.data)
    (h₂ : ∀ s ∈ l₂, s.data ≠ [] ∧ ',' ∉ s.data)
    (h : jsJoin l₁ = jsJoin l₂) : l₁ = l₂ := by
  have hd := congrArg String.data h
  simp only [jsJoin] at hd
  have := joinCommaChars_inj (l₁.map String.data) (l₂.map String.data)
    (by
      intro s hs
      obtain ⟨x, hx, rfl⟩ := List.mem_map.mp hs
      exact h₁ x hx)
    (by
      intro s hs
      obtain ⟨x, hx, rfl⟩ := List.mem_map.mp hs
      exact h₂ x hx) hd
  have hmapinj : Function.Injective String.data := fun a b hab => strEqOfData hab
  exact List.map_injective_iff.mpr hmapinj this

/-- Distinct code lists joined from sorted decimal strings collide only on
permutations: the sorted-joined pressed set equals a combo key exactly when
the pressed codes are a permutation of the combo's codes. -/
theorem pressedCombo_eq_comboKey_iff (P cs : List Int) :
    pressedCombo P = comboKeyOf cs ↔ List.Perm P cs := by
  constructor
  · intro h
    rw [comboKeyOf_eq_sorted] at h
    unfold pressedCombo at h
    have hgood : ∀ (l : List Int), ∀ s ∈ jsSortStrs (l.map intDecStr),
        s.data ≠ [] ∧ ',' ∉ s.data := by
      intro l s hs
      have hs' : s ∈ l.map intDecStr := (List.mem_insertionSort _).mp hs
      obtain ⟨c, _, rfl⟩ := List.mem_map.mp hs'
      rw [intDecStr_data]
      exact ⟨intDecChars_ne_nil c, intDecChars_no_comma c⟩
    have heq := jsJoin_inj (hgood P) (hgood cs) h
    have hperm : List.Perm (P.map intDecStr) (cs.map intDecStr) :=
      ((jsSortStrs_perm _).symm.trans (heq ▸ jsSortStrs_perm _))
    have hmul : (Multiset.map intDecStr ↑P) = Multiset.map intDecStr ↑cs := by
      rw [Multiset.map_coe, Multiset.map_coe]
      exact Multiset.coe_eq_coe.mpr hperm
    have := Multiset.map_injective (fun a b h => intDecStr_inj h) hmul
    exact Multiset.coe_eq_coe.mp this
  · intro h
    rw [comboKeyOf_eq_sorted]
    unfold pressedCombo
    exact congrArg jsJoin (jsSortStrs_eq_of_perm (h.map intDecStr))

/-! ## Association-list lemmas -/

theorem jsLookup_cons {α β : Type} [DecidableEq α] (p : α × β) (ps : List (α × β)) (k : α) :
    jsLookup (p :: ps) k = if p.1 = k then some p.2 else jsLookup ps k := by
  unfold jsLookup
  by_cases h : p.1 = k
  · rw [List.find?_cons_of_pos _ (by simpa using h), if_pos h]
    rfl
  · rw [List.find?_cons_of_neg _ (by simpa using h), if_neg h]

theorem jsLookup_eq_none_iff {α β : Type} [DecidableEq α]
    {l : List (α × β)} {k : α} :
    jsLookup l k = none ↔ ∀ p ∈ l, p.1 ≠ k := by
  unfold jsLookup
  simp [List.find?_eq_none]

theorem jsLookup_append_self {α β : Type} [DecidableEq α]
    {l : List (α × β)} {k : α} (e : β) (h : jsLookup l k = none) :
    jsLookup (l ++ [(k, e)]) k = some e := by
  induction l with
  | nil => simp [jsLookup]
  | cons p ps ih =>
    rw [List.cons_append, jsLookup_cons]
    rw [jsLookup_cons] at h
    by_cases hp : p.1 = k
    · rw [if_pos hp] at h
      exact absurd h (by simp)
    · rw [if_neg hp] at h ⊢
      exact ih h

theorem jsLookup_append_other {α β : Type} [DecidableEq α]
    {l : List (α × β)} {k k' : α} (e : β) (hne : k' ≠ k) :
    jsLookup (l ++ [(k, e)]) k' = jsLookup l k' := by
  induction l with
  | nil =>
    simp only [List.nil_append, jsLookup_cons]
    rw [if_neg (fun hc => hne hc.symm)]
  | cons p ps ih =>
    rw [List.cons_append, jsLookup_cons, jsLookup_cons]
    by_cases hp : p.1 = k'
    · rw [if_pos hp, if_pos hp]
    · rw [if_neg hp, if_neg hp]
      exact ih

theorem jsLookup_mem {α β : Type} [DecidableEq α] :
    ∀ {l : List (α × β)} {k : α} {e : β}, jsLookup l k = some e → (k, e) ∈ l := by
  intro l
  induction l with
  | nil => intro k e h; simp [jsLookup] at h
  | cons p ps ih =>
    intro k e h
    rw [jsLookup_cons] at h
    by_cases hp : p.1 = k
    · rw [if_pos hp] at h
      have : p = (k, e) := by
        cases p with
        | mk a b =>
          simp only at hp
          simp only [Option.some.injEq] at h
          rw [hp, h]
      rw [← this]
      exact List.mem_cons_self _ _
    · rw [if_neg hp] at h
      exact List.mem_cons_of_mem _ (ih h)

theorem jsLookup_of_mem_nodup {α β : Type} [DecidableEq α]
    {l : List (α × β)} {k : α} {e : β}
    (hmem : (k, e) ∈ l) (hnd : (l.map Prod.fst).Nodup) :
    jsLookup l k = some e := by
  induction l with
  | nil => simp at hmem
  | cons p ps ih =>
    simp only [List.map_cons, List.nodup_cons] at hnd
    rw [jsLookup_cons]
    rcases List.mem_cons.mp hmem with heq | htl
    · rw [← heq]
      simp
    · have hne : p.1 ≠ k := by
        intro hc
        exact hnd.1 (hc ▸ List.mem_map.mpr ⟨(k, e), htl, rfl⟩)
      rw [if_neg hne]
      exact ih htl hnd.2

theorem jsSetAdd_ne_nil {α : Type} [DecidableEq α] (l : List α) (a : α) :
    jsSetAdd l a ≠ [] := by
  unfold jsSetAdd
  by_cases h : a ∈ l
  · rw [if_pos h]
    exact List.ne_nil_of_mem h
  · rw [if_neg h]
    simp

theorem findDragNode_lookup : ∀ (d : List (Nat × DragEntry)) (chain : List Nat)
    (n : Nat) (e : DragEntry), findDragNode d chain = some (n, e) →
    jsLookup d n = some e
  | _, [], _, _, h => by simp [findDragNode] at h
  | _, [_], _, _, h => by simp [findDragNode] at h
  | d, a :: b :: rest, n, e, h => by
    simp only [findDragNode] at h
    cases hl : jsLookup d a with
    | some v =>
      rw [hl] at h
      simp only [Option.some.injEq, Prod.mk.injEq] at h
      obtain ⟨h1, h2⟩ := h
      subst h1
      subst h2
      exact hl
    | none =>
      rw [hl] at h
      exact findDragNode_lookup d (b :: rest) n e h

/-! ## Characterization of the registration calls -/

/-- The empty `src/keyboard.js` tracker (non-Mac platform). -/
def kbEmpty : Keyboard := ⟨[], [], keyboardIgnoreDefault, false, []⟩

/-- The empty part_003 tracker (non-Mac platform). -/
def kbEmptyB : KeyboardB := ⟨[], [], keyboardIgnoreDefault, false, []⟩

/-- `Keyboard.addShortcut` with a list argument either appends a fresh entry
under the sorted-joined combo key, or throws leaving the registry unchanged;
either way the caller's array ends up sorted in place. -/
theorem kbAdd_cases (kb : Keyboard) (cb : Nat) (cs : List Int) (id : Option String) :
    (jsLookup kb.shortcuts (comboKeyOf cs) = none ∧
      Keyboard.addShortcut kb cb (KeyCodes.list cs) id =
        ⟨JsOutcome.returned cb,
         { kb with shortcuts := kb.shortcuts ++ [(comboKeyOf cs, ⟨cb, id⟩)] },
         KeyCodes.list (jsSortInt cs)⟩)
    ∨ (∃ e, jsLookup kb.shortcuts (comboKeyOf cs) = some e ∧
      Keyboard.addShortcut kb cb (KeyCodes.list cs) id =
        ⟨JsOutcome.thrown (KErr.conflict
            (jsJoinSep " + " ((jsSortInt cs).map (fun c => (keyByCode c).getD "")))
            (idOrCallback e.id e.callback)),
         kb, KeyCodes.list (jsSortInt cs)⟩) := by
  unfold Keyboard.addShortcut
  cases hl : jsLookup kb.shortcuts (comboKeyOf cs) with
  | none =>
    left
    refine ⟨rfl, ?_⟩
    simp only [toList]
    rw [show jsJoin ((jsSortInt cs).map intDecStr) = comboKeyOf cs from rfl, hl]
  | some e =>
    right
    refine ⟨e, rfl, ?_⟩
    simp only [toList]
    rw [show jsJoin ((jsSortInt cs).map intDecStr) = comboKeyOf cs from rfl, hl]

/-- `Keyboard.addShortcut` with a single-code argument either appends a fresh
entry, or raises the `TypeError` from `keyCodes.map` on a number. -/
theorem kbAdd_single_cases (kb : Keyboard) (cb : Nat) (c : Int) (id : Option String) :
    (jsLookup kb.shortcuts (comboKeyOf [c]) = none ∧
      Keyboard.addShortcut kb cb (KeyCodes.single c) id =
        ⟨JsOutcome.returned cb,
         { kb with shortcuts := kb.shortcuts ++ [(comboKeyOf [c], ⟨cb, id⟩)] },
         KeyCodes.single c⟩)
    ∨ (∃ e, jsLookup kb.shortcuts (comboKeyOf [c]) = some e ∧
      Keyboard.addShortcut kb cb (KeyCodes.single c) id =
        ⟨JsOutcome.thrown KErr.typeError, kb, KeyCodes.single c⟩) := by
  unfold Keyboard.addShortcut
  cases hl : jsLookup kb.shortcuts (comboKeyOf [c]) with
  | none =>
    left
    refine ⟨rfl, ?_⟩
    simp only [toList]
    rw [show jsJoin ((jsSortInt [c]).map intDecStr) = comboKeyOf [c] from rfl, hl]
  | some e =>
    right
    refine ⟨e, rfl, ?_⟩
    simp only [toList]
    rw [show jsJoin ((jsSortInt [c]).map intDecStr) = comboKeyOf [c] from rfl, hl]

/-- The registry key the part_003 revision stores an entry under. -/
def keysIdOf (cs : List Int) (id : Option String) : String :=
  comboKeyOf cs ++ "_" ++ jsTemplateOpt id

/-- `KeyboardB.addShortcut` with a list argument: fresh entries are keyed by
combo key and group id together; the caller's array is never modified. -/
theorem kbAddB_cases (kb : KeyboardB) (cb : Nat) (cs : List Int) (id : Option String) :
    (jsLookup kb.shortcuts (keysIdOf cs id) = none ∧
      KeyboardB.addShortcut kb cb (KeyCodes.list cs) id =
        ⟨JsOutcome.returned cb,
         { kb with shortcuts := kb.shortcuts ++ [(keysIdOf cs id, ⟨cb, comboKeyOf cs, id⟩)] },
         KeyCodes.list cs⟩)
    ∨ (∃ e, jsLookup kb.shortcuts (keysIdOf cs id) = some e ∧
      KeyboardB.addShortcut kb cb (KeyCodes.list cs) id =
        ⟨JsOutcome.thrown (KErr.conflict
            (jsJoinSep " + " (cs.map (fun c => (keyByCode c).getD "")))
            (idOrCallback e.id e.callback)),
         kb, KeyCodes.list cs⟩) := by
  unfold KeyboardB.addShortcut
  cases hl : jsLookup kb.shortcuts (keysIdOf cs id) with
  | none =>
    left
    refine ⟨rfl, ?_⟩
    simp only [toList]
    rw [show jsJoin ((jsSortInt cs).map intDecStr) ++ "_" ++ jsTemplateOpt id
          = keysIdOf cs id from rfl, hl]
    rfl
  | some e =>
    right
    refine ⟨e, rfl, ?_⟩
    simp only [toList]
    rw [show jsJoin ((jsSortInt cs).map intDecStr) ++ "_" ++ jsTemplateOpt id
          = keysIdOf cs id from rfl, hl]

/-! ## Claim C9 -/

/-- C9 counterexample: registering the key-code list `[80, 9]` stores the
comboKey `"80,9"` — JavaScript's default sort compares decimal strings, so
`[80, 9]` is already "sorted" — not the numerically ascending join `"9,80"`
the claim requires. -/
theorem C9_counterexample :
    (Keyboard.addShortcut kbEmpty 1 (KeyCodes.list [80, 9]) none).state.shortcuts
      = [("80,9", ⟨1, none⟩)]
    ∧ jsJoin [intDecStr 9, intDecStr 80] = "9,80"
    ∧ ("80,9" : String) ≠ "9,80" := by
  refine ⟨by decide, by decide, by decide⟩

/-- C9 (amended): a successful registration stores the entry under
`comboKeyOf keyCodes` — the codes sorted by JavaScript's default comparison
(decimal-string, lexicographic) and comma-joined.  That key is sorted with
respect to the string order, contains exactly the given codes, and is
invariant under permutations of the input. -/
theorem C9_amended_correct (kb : Keyboard) (cb : Nat) (cs cs' : List Int)
    (id : Option String)
    (hok : (Keyboard.addShortcut kb cb (KeyCodes.list cs) id).result
      = JsOutcome.returned cb)
    (hperm : List.Perm cs cs') :
    (Keyboard.addShortcut kb cb (KeyCodes.list cs) id).state.shortcuts
      = kb.shortcuts ++ [(comboKeyOf cs, ⟨cb, id⟩)]
    ∧ comboKeyOf cs = comboKeyOf cs'
    ∧ List.Sorted strLeRel ((jsSortInt cs).map intDecStr)
    ∧ List.Perm (jsSortInt cs) cs := by
  refine ⟨?_, comboKeyOf_perm hperm, ?_, List.perm_insertionSort _ _⟩
  · rcases kbAdd_cases kb cb cs id with ⟨_, heq⟩ | ⟨e, _, heq⟩
    · rw [heq]
    · rw [heq] at hok
      exact absurd hok (by simp)
  · rw [jsSortInt_map]
    exact List.sorted_insertionSort _ _

/-- C9 witness: instantiating the amended claim at `[80, 9]` versus its
permutation `[9, 80]`. -/
theorem C9_witness :
    (Keyboard.addShortcut kbEmpty 1 (KeyCodes.list [80, 9]) none).state.shortcuts
      = kbEmpty.shortcuts ++ [(comboKeyOf [80, 9], ⟨1, none⟩)]
    ∧ comboKeyOf [80, 9] = comboKeyOf [9, 80]
    ∧ List.Sorted strLeRel ((jsSortInt [80, 9]).map intDecStr)
    ∧ List.Perm (jsSortInt [80, 9]) [80, 9] :=
  C9_amended_correct kbEmpty 1 [80, 9] [9, 80] none (by decide) (by decide)

/-! ## Claim C10 -/

/-- C10 counterexample: `Keyboard.addShortcut` of `src/keyboard.js` succeeds
on the list `[9, 80]` yet leaves the caller's array reordered to `[80, 9]`:
`toList` returns the caller's array itself, and `sort()` mutates in place. -/
theorem C10_counterexample :
    (Keyboard.addShortcut kbEmpty 1 (KeyCodes.list [9, 80]) none).result
      = JsOutcome.returned 1
    ∧ (Keyboard.addShortcut kbEmpty 1 (KeyCodes.list [9, 80]) none).keyCodesAfter
      = KeyCodes.list [80, 9]
    ∧ KeyCodes.list [80, 9] ≠ KeyCodes.list [9, 80] := by
  refine ⟨by decide, by decide, by decide⟩

/-- C10 (amended): the part_003 revision's `addShortcut` copies the codes
before sorting, so the caller's list is returned unchanged on every call;
the `src/keyboard.js` revision instead sorts the caller's list in place, so
after any call (successful or not) the list holds the same codes reordered
into JavaScript sort order. -/
theorem C10_amended_correct (kb : Keyboard) (kb2 : KeyboardB) (cb : Nat)
    (cs : List Int) (id : Option String) :
    (KeyboardB.addShortcut kb2 cb (KeyCodes.list cs) id).keyCodesAfter
      = KeyCodes.list cs
    ∧ (Keyboard.addShortcut kb cb (KeyCodes.list cs) id).keyCodesAfter
      = KeyCodes.list (jsSortInt cs)
    ∧ List.Perm (jsSortInt cs) cs := by
  refine ⟨?_, ?_, List.perm_insertionSort _ _⟩
  · rcases kbAddB_cases kb2 cb cs id with ⟨_, heq⟩ | ⟨e, _, heq⟩ <;> rw [heq]
  · rcases kbAdd_cases kb cb cs id with ⟨_, heq⟩ | ⟨e, _, heq⟩ <;> rw [heq]

/-! ## Claim C1 -/

/-- The part_003 tracker holding `[Ctrl, p]` for owner `"A"`. -/
def c1KbB : KeyboardB :=
  (KeyboardB.addShortcut kbEmptyB 1 (KeyCodes.list [KEY.Ctrl, KEY.p]) (some "A")).state

/-- C1 counterexample: in the part_003 revision the registry key is
``​`${keys}_${id}` ``, so registering `[p, Ctrl]` — the same code set — under
a different owner id does **not** throw, and the registry then holds two
entries with the same comboKey `"-17,80"`. -/
theorem C1_counterexample :
    (KeyboardB.addShortcut c1KbB 2 (KeyCodes.list [KEY.p, KEY.Ctrl]) (some "B")).result
      = JsOutcome.returned 2
    ∧ ((KeyboardB.addShortcut c1KbB 2 (KeyCodes.list [KEY.p, KEY.Ctrl]) (some "B")).state.shortcuts.filter
        (fun pr => pr.2.keys = "-17,80")).length = 2 := by
  refine ⟨by decide, by decide⟩

/-- C1 (amended): in `src/keyboard.js`, a second registration whose key-code
list is a permutation of an existing combo throws the conflict error naming
the existing owner id or handler — regardless of the owner id supplied — and
leaves the registry unchanged, and registration keeps combo keys unique, so
that registry holds at most one entry per comboKey; a duplicate given as a
single code also fails and leaves the registry unchanged, but with a
`TypeError` rather than the conflict error.  In the part_003 revision,
entries are keyed by comboKey and owner id together, so a permuted duplicate
throws (naming the existing owner) exactly when the same owner id — in
particular no id at all, as in the `[Ctrl, P]` / `[P, Ctrl]` example — is
supplied again. -/
theorem C1_amended_correct :
    (∀ (kb : Keyboard) (cb cb' : Nat) (cs cs' : List Int) (id id' : Option String),
      (Keyboard.addShortcut kb cb (KeyCodes.list cs) id).result = JsOutcome.returned cb →
      List.Perm cs' cs →
      ∃ v,
        (Keyboard.addShortcut (Keyboard.addShortcut kb cb (KeyCodes.list cs) id).state
            cb' (KeyCodes.list cs') id').result
          = JsOutcome.thrown (KErr.conflict v (idOrCallback id cb))
        ∧ (Keyboard.addShortcut (Keyboard.addShortcut kb cb (KeyCodes.list cs) id).state
            cb' (KeyCodes.list cs') id').state
          = (Keyboard.addShortcut kb cb (KeyCodes.list cs) id).state)
    ∧ (∀ (kb : Keyboard) (cb : Nat) (codes : KeyCodes) (id : Option String),
        (kb.shortcuts.map Prod.fst).Nodup →
        ((Keyboard.addShortcut kb cb codes id).state.shortcuts.map Prod.fst).Nodup)
    ∧ (∀ (kb : Keyboard) (cb cb' : Nat) (c : Int) (id id' : Option String),
        (Keyboard.addShortcut kb cb (KeyCodes.single c) id).result = JsOutcome.returned cb →
        (Keyboard.addShortcut (Keyboard.addShortcut kb cb (KeyCodes.single c) id).state
            cb' (KeyCodes.single c) id').result = JsOutcome.thrown KErr.typeError
        ∧ (Keyboard.addShortcut (Keyboard.addShortcut kb cb (KeyCodes.single c) id).state
            cb' (KeyCodes.single c) id').state
          = (Keyboard.addShortcut kb cb (KeyCodes.single c) id).state)
    ∧ (∀ (kb : KeyboardB) (cb cb' : Nat) (cs cs' : List Int) (id : Option String),
        (KeyboardB.addShortcut kb cb (KeyCodes.list cs) id).result = JsOutcome.returned cb →
        List.Perm cs' cs →
        ∃ v,
          (KeyboardB.addShortcut (KeyboardB.addShortcut kb cb (KeyCodes.list cs) id).state
              cb' (KeyCodes.list cs') id).result
            = JsOutcome.thrown (KErr.conflict v (idOrCallback id cb))
          ∧ (KeyboardB.addShortcut (KeyboardB.addShortcut kb cb (KeyCodes.list cs) id).state
              cb' (KeyCodes.list cs') id).state
            = (KeyboardB.addShortcut kb cb (KeyCodes.list cs) id).state) := by
  refine ⟨?_, ?_, ?_, ?_⟩
  · intro kb cb cb' cs cs' id id' hok hperm
    rcases kbAdd_cases kb cb cs id with ⟨hnone, heq⟩ | ⟨e, _, heq⟩
    · rw [heq] at hok ⊢
      have hkey : comboKeyOf cs' = comboKeyOf cs := comboKeyOf_perm hperm
      rcases kbAdd_cases { kb with shortcuts := kb.shortcuts ++ [(comboKeyOf cs, ⟨cb, id⟩)] }
          cb' cs' id' with ⟨hnone2, _⟩ | ⟨e2, hsome2, heq2⟩
      · exfalso
        rw [hkey] at hnone2
        have := jsLookup_append_self (⟨cb, id⟩ : Keyboard.Entry) hnone
        rw [this] at hnone2
        exact Option.noConfusion hnone2
      · have he2 : e2 = ⟨cb, id⟩ := by
          rw [hkey] at hsome2
          have := jsLookup_append_self (⟨cb, id⟩ : Keyboard.Entry) hnone
          rw [this] at hsome2
          exact (Option.some.injEq _ _ ▸ hsome2).symm
        refine ⟨jsJoinSep " + " ((jsSortInt cs').map (fun c => (keyByCode c).getD "")), ?_, ?_⟩
        · rw [heq2, he2]
        · rw [heq2]
    · rw [heq] at hok
      exact absurd hok (by simp)
  · intro kb cb codes id hnd
    cases codes with
    | single c =>
      rcases kbAdd_single_cases kb cb c id with ⟨hnone, heq⟩ | ⟨e, _, heq⟩
      · rw [heq]
        simp only [List.map_append, List.map_cons, List.map_nil]
        rw [List.nodup_append]
        refine ⟨hnd, List.nodup_singleton _, ?_⟩
        intro x hx hx2
        simp only [List.mem_singleton] at hx2
        obtain ⟨p, hp, hpx⟩ := List.mem_map.mp hx
        exact (jsLookup_eq_none_iff.mp hnone p hp) (hpx.trans hx2)
      · rw [heq]
        exact hnd
    | list cs =>
      rcases kbAdd_cases kb cb cs id with ⟨hnone, heq⟩ | ⟨e, _, heq⟩
      · rw [heq]
        simp only [List.map_append, List.map_cons, List.map_nil]
        rw [List.nodup_append]
        refine ⟨hnd, List.nodup_singleton _, ?_⟩
        intro x hx hx2
        simp only [List.mem_singleton] at hx2
        obtain ⟨p, hp, hpx⟩ := List.mem_map.mp hx
        exact (jsLookup_eq_none_iff.mp hnone p hp) (hpx.trans hx2)
      · rw [heq]
        exact hnd
  · intro kb cb cb' c id id' hok
    rcases kbAdd_single_cases kb cb c id with ⟨hnone, heq⟩ | ⟨e, _, heq⟩
    · rw [heq] at hok ⊢
      rcases kbAdd_single_cases { kb with shortcuts := kb.shortcuts ++ [(comboKeyOf [c], ⟨cb, id⟩)] }
          cb' c id' with ⟨hnone2, _⟩ | ⟨e2, hsome2, heq2⟩
      · exfalso
        have := jsLookup_append_self (⟨cb, id⟩ : Keyboard.Entry) hnone
        rw [this] at hnone2
        exact Option.noConfusion hnone2
      · rw [heq2]
        exact ⟨rfl, rfl⟩
    · rw [heq] at hok
      exact absurd hok (by simp)
  · intro kb cb cb' cs cs' id hok hperm
    rcases kbAddB_cases kb cb cs id with ⟨hnone, heq⟩ | ⟨e, _, heq⟩
    · rw [heq] at hok ⊢
      have hkey : keysIdOf cs' id = keysIdOf cs id := by
        unfold keysIdOf
        rw [comboKeyOf_perm hperm]
      rcases kbAddB_cases { kb with shortcuts := kb.shortcuts ++ [(keysIdOf cs id, ⟨cb, comboKeyOf cs, id⟩)] }
          cb' cs' id with ⟨hnone2, _⟩ | ⟨e2, hsome2, heq2⟩
      · exfalso
        rw [hkey] at hnone2
        have := jsLookup_append_self (⟨cb, comboKeyOf cs, id⟩ : KeyboardB.Entry) hnone
        rw [this] at hnone2
        exact Option.noConfusion hnone2
      · have he2 : e2 = ⟨cb, comboKeyOf cs, id⟩ := by
          rw [hkey] at hsome2
          have := jsLookup_append_self (⟨cb, comboKeyOf cs, id⟩ : KeyboardB.Entry) hnone
          rw [this] at hsome2
          exact (Option.some.injEq _ _ ▸ hsome2).symm
        refine ⟨jsJoinSep " + " (cs'.map (fun c => (keyByCode c).getD "")), ?_, ?_⟩
        · rw [heq2, he2]
        · rw [heq2]
    · rw [heq] at hok
      exact absurd hok (by simp)

/-- C1 witness: the amended claim instantiated at `[Ctrl, p]` versus the
permutation `[p, Ctrl]`, at a single-code duplicate, and at the part_003
same-owner duplicate. -/
theorem C1_witness :
    (∃ v,
      (Keyboard.addShortcut
          (Keyboard.addShortcut kbEmpty 1 (KeyCodes.list [KEY.Ctrl, KEY.p]) (some "A")).state
          2 (KeyCodes.list [KEY.p, KEY.Ctrl]) (some "B")).result
        = JsOutcome.thrown (KErr.conflict v (idOrCallback (some "A") 1))
      ∧ (Keyboard.addShortcut
          (Keyboard.addShortcut kbEmpty 1 (KeyCodes.list [KEY.Ctrl, KEY.p]) (some "A")).state
          2 (KeyCodes.list [KEY.p, KEY.Ctrl]) (some "B")).state
        = (Keyboard.addShortcut kbEmpty 1 (KeyCodes.list [KEY.Ctrl, KEY.p]) (some "A")).state)
    ∧ ((Keyboard.addShortcut kbEmpty 1 (KeyCodes.list [KEY.Ctrl, KEY.p]) none).state.shortcuts.map
        Prod.fst).Nodup
    ∧ ((Keyboard.addShortcut
          (Keyboard.addShortcut kbEmpty 1 (KeyCodes.single 80) none).state
          2 (KeyCodes.single 80) none).result = JsOutcome.thrown KErr.typeError
      ∧ (Keyboard.addShortcut
          (Keyboard.addShortcut kbEmpty 1 (KeyCodes.single 80) none).state
          2 (KeyCodes.single 80) none).state
        = (Keyboard.addShortcut kbEmpty 1 (KeyCodes.single 80) none).state)
    ∧ (∃ v,
      (KeyboardB.addShortcut
          (KeyboardB.addShortcut kbEmptyB 1 (KeyCodes.list [KEY.Ctrl, KEY.p]) none).state
          2 (KeyCodes.list [KEY.p, KEY.Ctrl]) none).result
        = JsOutcome.thrown (KErr.conflict v (idOrCallback none 1))
      ∧ (KeyboardB.addShortcut
          (KeyboardB.addShortcut kbEmptyB 1 (KeyCodes.list [KEY.Ctrl, KEY.p]) none).state
          2 (KeyCodes.list [KEY.p, KEY.Ctrl]) none).state
        = (KeyboardB.addShortcut kbEmptyB 1 (KeyCodes.list [KEY.Ctrl, KEY.p]) none).state) := by
  obtain ⟨h1, h2, h3, h4⟩ := C1_amended_correct
  exact ⟨h1 kbEmpty 1 2 [KEY.Ctrl, KEY.p] [KEY.p, KEY.Ctrl] (some "A") (some "B")
          (by decide) (by decide),
         h2 kbEmpty 1 (KeyCodes.list [KEY.Ctrl, KEY.p]) none (by decide),
         h3 kbEmpty 1 2 80 none none (by decide),
         h4 kbEmptyB 1 2 [KEY.Ctrl, KEY.p] [KEY.p, KEY.Ctrl] none (by decide) (by decide)⟩

/-! ## Claims C2 and C7 -/

/-- The call trace of an event sequence (discarding the final state). -/
def runCalls (p : Pointer) (evs : List HostEv) : JsOutcome PErr (List Call) :=
  match p.run evs with
  | JsOutcome.thrown e => JsOutcome.thrown e
  | JsOutcome.returned pr => JsOutcome.returned pr.2

/-- C2: pointer-down on an element with a registered drag entry, three moves,
then pointer-up: the first move fires nothing, `onDragStart` fires once with
the remembered down event, `onDrag` twice, `onDragEnd` once and `onDragUp`
once. -/
theorem C2_correct (p : Pointer) (n : Nat) (entry : DragEntry)
    (cbDown cbStart cbDrag cbEnd cbUp : Nat) (e0 e1 e2 e3 e4 : PEvent)
    (hfind : findDragNode p.dragNodes e0.targetChain = some (n, entry))
    (hdown : entry.onDragDown = some cbDown)
    (hstart : entry.onDragStart = some cbStart)
    (hdrag : entry.onDrag = some cbDrag)
    (hend : entry.onDragEnd = some cbEnd)
    (hup : entry.onDragUp = some cbUp)
    (hbutton : e0.button = KEY.LEFT_CLICK)
    (hignore : p.ignoreEventsFrom.contains e0.targetLocalName = false)
    (hhad : p.hadDrag = false) :
    runCalls p [HostEv.pdown e0, HostEv.pmove e1, HostEv.pmove e2,
                HostEv.pmove e3, HostEv.pup e4]
      = JsOutcome.returned
          [Call.dragDown cbDown e0, Call.dragStart cbStart e0, Call.drag cbDrag e2,
           Call.drag cbDrag e3, Call.dragEnd cbEnd e4, Call.dragUp cbUp e4]
    ∧ runCalls p [HostEv.pdown e0, HostEv.pmove e1]
      = JsOutcome.returned [Call.dragDown cbDown e0]
    ∧ countDragStart [Call.dragDown cbDown e0, Call.dragStart cbStart e0,
        Call.drag cbDrag e2, Call.drag cbDrag e3, Call.dragEnd cbEnd e4,
        Call.dragUp cbUp e4] = 1
    ∧ countDrag [Call.dragDown cbDown e0, Call.dragStart cbStart e0,
        Call.drag cbDrag e2, Call.drag cbDrag e3, Call.dragEnd cbEnd e4,
        Call.dragUp cbUp e4] = 2
    ∧ countDragEnd [Call.dragDown cbDown e0, Call.dragStart cbStart e0,
        Call.drag cbDrag e2, Call.drag cbDrag e3, Call.dragEnd cbEnd e4,
        Call.dragUp cbUp e4] = 1
    ∧ countDragUp [Call.dragDown cbDown e0, Call.dragStart cbStart e0,
        Call.drag cbDrag e2, Call.drag cbDrag e3, Call.dragEnd cbEnd e4,
        Call.dragUp cbUp e4] = 1 := by
  have hlook := findDragNode_lookup _ _ _ _ hfind
  have hmem : e0.targetLocalName ∉ p.ignoreEventsFrom := by
    simpa using hignore
  refine ⟨?_, ?_, rfl, rfl, rfl, rfl⟩
  · simp [runCalls, Pointer.run, Pointer.deliver, Pointer.onPointerDown,
      Pointer.onPointerUp, Pointer.onPointerMove, hfind, hlook, hdown, hstart,
      hdrag, hend, hup, hbutton, hmem, hhad]
  · simp [runCalls, Pointer.run, Pointer.deliver, Pointer.onPointerDown,
      Pointer.onPointerMove, hfind, hdown, hbutton, hmem]

/-- C2 witness: the drag scenario run on a concrete tracker. -/
theorem C2_witness :
    runCalls { Pointer.init with dragNodes := [(5, ⟨some "Pen", some 11, some 12, some 13, some 14, some 15⟩)] }
        [HostEv.pdown ⟨0, "div", [5, 99], 0⟩, HostEv.pmove ⟨0, "div", [5, 99], 1⟩,
         HostEv.pmove ⟨0, "div", [5, 99], 2⟩, HostEv.pmove ⟨0, "div", [5, 99], 3⟩,
         HostEv.pup ⟨0, "div", [5, 99], 4⟩]
      = JsOutcome.returned
          [Call.dragDown 14 ⟨0, "div", [5, 99], 0⟩, Call.dragStart 12 ⟨0, "div", [5, 99], 0⟩,
           Call.drag 11 ⟨0, "div", [5, 99], 2⟩, Call.drag 11 ⟨0, "div", [5, 99], 3⟩,
           Call.dragEnd 13 ⟨0, "div", [5, 99], 4⟩, Call.dragUp 15 ⟨0, "div", [5, 99], 4⟩] :=
  (C2_correct { Pointer.init with dragNodes := [(5, ⟨some "Pen", some 11, some 12, some 13, some 14, some 15⟩)] }
    5 ⟨some "Pen", some 11, some 12, some 13, some 14, some 15⟩ 14 12 11 13 15
    ⟨0, "div", [5, 99], 0⟩ ⟨0, "div", [5, 99], 1⟩ ⟨0, "div", [5, 99], 2⟩
    ⟨0, "div", [5, 99], 3⟩ ⟨0, "div", [5, 99], 4⟩
    (by decide) rfl rfl rfl rfl rfl (by decide) (by decide) rfl).1

/-- C7: pointer-down then pointer-up with no intervening move on a registered
element fires `onDragDown` and `onDragUp` exactly once each and never fires
`onDragStart`, `onDrag` or `onDragEnd`. -/
theorem C7_correct (p : Pointer) (n : Nat) (entry : DragEntry)
    (cbDown cbUp : Nat) (e0 e1 : PEvent)
    (hfind : findDragNode p.dragNodes e0.targetChain = some (n, entry))
    (hdown : entry.onDragDown = some cbDown)
    (hup : entry.onDragUp = some cbUp)
    (hbutton : e0.button = KEY.LEFT_CLICK)
    (hignore : p.ignoreEventsFrom.contains e0.targetLocalName = false)
    (hhad : p.hadDrag = false) :
    runCalls p [HostEv.pdown e0, HostEv.pup e1]
      = JsOutcome.returned [Call.dragDown cbDown e0, Call.dragUp cbUp e1]
    ∧ countDragDown [Call.dragDown cbDown e0, Call.dragUp cbUp e1] = 1
    ∧ countDragUp [Call.dragDown cbDown e0, Call.dragUp cbUp e1] = 1
    ∧ countDragStart [Call.dragDown cbDown e0, Call.dragUp cbUp e1] = 0
    ∧ countDrag [Call.dragDown cbDown e0, Call.dragUp cbUp e1] = 0
    ∧ countDragEnd [Call.dragDown cbDown e0, Call.dragUp cbUp e1] = 0 := by
  have hlook := findDragNode_lookup _ _ _ _ hfind
  have hmem : e0.targetLocalName ∉ p.ignoreEventsFrom := by
    simpa using hignore
  refine ⟨?_, rfl, rfl, rfl, rfl, rfl⟩
  simp [runCalls, Pointer.run, Pointer.deliver, Pointer.onPointerDown,
    Pointer.onPointerUp, hfind, hlook, hdown, hup, hbutton, hmem, hhad]

/-- C7 witness: the tap scenario run on a concrete tracker. -/
theorem C7_witness :
    runCalls { Pointer.init with dragNodes := [(5, ⟨some "Pen", some 11, some 12, some 13, some 14, some 15⟩)] }
        [HostEv.pdown ⟨0, "div", [5, 99], 0⟩, HostEv.pup ⟨0, "div", [5, 99], 1⟩]
      = JsOutcome.returned
          [Call.dragDown 14 ⟨0, "div", [5, 99], 0⟩, Call.dragUp 15 ⟨0, "div", [5, 99], 1⟩] :=
  (C7_correct { Pointer.init with dragNodes := [(5, ⟨some "Pen", some 11, some 12, some 13, some 14, some 15⟩)] }
    5 ⟨some "Pen", some 11, some 12, some 13, some 14, some 15⟩ 14 15
    ⟨0, "div", [5, 99], 0⟩ ⟨0, "div", [5, 99], 1⟩
    (by decide) rfl rfl (by decide) (by decide) rfl).1

/-! ## Claim C5 -/

/-- Whether a call returned normally (did not throw). -/
def JsOutcome.isReturned {e a : Type} : JsOutcome e a -> Bool
  | JsOutcome.thrown _ => false
  | JsOutcome.returned _ => true


/-- The drag handlers used in the unregister-mid-gesture scenario. -/
def c5Entry : DragEntry := ⟨some "Pen", some 11, some 12, some 13, some 14, some 15⟩

/-- A pointer event over the registered element (left button, a `div` inside
the chain `[5, 99]`). -/
def c5Ev (t : Nat) : PEvent := ⟨0, "div", [5, 99], t⟩

/-- The tracker after registering element `5` through the public API and
delivering the pointer-down that arms the gesture. -/
def c5Armed : Pointer :=
  ((Pointer.addDragBehavior Pointer.init c5Entry 5).2.onPointerDown (c5Ev 0)).1

/-- C5: the dispatch path is not error-free.  A pointer-up with no armed
gesture is silently ignored as claimed, but if the drag entry is
unregistered while a gesture is in progress, the pointer-up (or a second
pointer-move) destructures the `undefined` returned by `Map.get` and the
event path throws a `TypeError`; only handler code may legitimately throw,
so this run should have returned normally. -/
theorem C5_event_path_throws :
    (Pointer.addDragBehavior Pointer.init c5Entry 5).1 = JsOutcome.returned 5
    ∧ Pointer.run Pointer.init [HostEv.pup (c5Ev 1)]
      = JsOutcome.returned (Pointer.init, [])
    ∧ ((Pointer.addDragBehavior Pointer.init c5Entry 5).2.run [HostEv.pdown (c5Ev 0)]).isReturned
    ∧ (c5Armed.removeDragByNode 5).run [HostEv.pup (c5Ev 1)]
      = JsOutcome.thrown PErr.typeError
    ∧ (c5Armed.removeDragByNode 5).run [HostEv.pmove (c5Ev 1), HostEv.pmove (c5Ev 2)]
      = JsOutcome.thrown PErr.typeError := by
  refine ⟨by decide, by decide, by decide, by decide, by decide⟩

/-! ## Claim C8 -/

/-- A tracker that currently records `p` (code 80) as pressed. -/
def c8Kb : Keyboard := { kbEmpty with pressed := ["KeyP"], keyCode := [80] }

/-- C8 counterexample: `src/keyboard.js` checks the ignore set on key-down
only; a key-up originating from an `input` element is processed anyway and
mutates the pressed set (code 80 is deleted). -/
theorem C8_counterexample :
    c8Kb.ignoreEventsFrom.contains "input" = true
    ∧ c8Kb.keyCode = [80]
    ∧ (c8Kb.onRelease ⟨"input", 80, "p"⟩).keyCode = []
    ∧ (c8Kb.onRelease ⟨"input", 80, "p"⟩).keyCode ≠ c8Kb.keyCode := by
  refine ⟨by decide, by decide, by decide, by decide⟩

/-- C8 (amended): events from elements in the ignore set are fully
suppressed by key-down processing in both revisions and by key-up processing
in the part_003 revision — no pressed-state mutation and no dispatch; the
`src/keyboard.js` key-up handler has no ignore-set check and processes the
release (Meta clearing or deletion of the normalized code) regardless of the
event source. -/
theorem C8_amended_correct (kb : Keyboard) (kb2 : KeyboardB) (ev : KEvent)
    (dur : Nat → Nat)
    (hig : kb.ignoreEventsFrom.contains ev.targetLocalName = true)
    (hig2 : kb2.ignoreEventsFrom.contains ev.targetLocalName = true) :
    Keyboard.onPress kb ev = (kb, [])
    ∧ KeyboardB.onPress kb2 ev dur = (kb2, [])
    ∧ KeyboardB.onRelease kb2 ev = kb2
    ∧ (¬(ev.key = "Meta" ∧ kb.macLike) →
        (Keyboard.onRelease kb ev).keyCode
          = jsDelete kb.keyCode (normalizeKeyCode kb.macLike ev.keyCode))
    ∧ (ev.key = "Meta" ∧ kb.macLike → (Keyboard.onRelease kb ev).keyCode = []) := by
  refine ⟨?_, ?_, ?_, ?_, ?_⟩
  · unfold Keyboard.onPress
    rw [if_pos hig]
  · unfold KeyboardB.onPress
    rw [if_pos hig2]
  · unfold KeyboardB.onRelease
    rw [if_pos hig2]
  · intro hnot
    unfold Keyboard.onRelease
    rw [if_neg hnot]
  · intro hmeta
    unfold Keyboard.onRelease
    rw [if_pos hmeta]

/-- C8 witness: the amended claim at a key-up/key-down from an `input`
element with `p` pressed. -/
theorem C8_witness :
    Keyboard.onPress c8Kb ⟨"input", 80, "p"⟩ = (c8Kb, [])
    ∧ KeyboardB.onPress kbEmptyB ⟨"input", 80, "p"⟩ (fun _ => 0) = (kbEmptyB, [])
    ∧ KeyboardB.onRelease kbEmptyB ⟨"input", 80, "p"⟩ = kbEmptyB
    ∧ (¬(("p" : String) = "Meta" ∧ c8Kb.macLike) →
        (Keyboard.onRelease c8Kb ⟨"input", 80, "p"⟩).keyCode
          = jsDelete c8Kb.keyCode (normalizeKeyCode c8Kb.macLike 80))
    ∧ (("p" : String) = "Meta" ∧ c8Kb.macLike →
        (Keyboard.onRelease c8Kb ⟨"input", 80, "p"⟩).keyCode = []) :=
  C8_amended_correct c8Kb kbEmptyB ⟨"input", 80, "p"⟩ (fun _ => 0)
    (by decide) (by decide)

/-! ## Claim C4 -/

/-- C4: on key-up (from a non-ignored source for the part_003 revision,
which checks the ignore set first), releasing a key whose `event.key` is
`"Meta"` on a Mac-like platform clears the entire pressed set — every
recorded key — in both maps and both revisions; any other release removes
exactly the one normalized code and keeps every other recorded key. -/
theorem C4_release_correct (kb : Keyboard) (kb2 : KeyboardB) (ev : KEvent)
    (hig2 : kb2.ignoreEventsFrom.contains ev.targetLocalName = false) :
    (ev.key = "Meta" ∧ kb.macLike →
      (Keyboard.onRelease kb ev).pressed = [] ∧ (Keyboard.onRelease kb ev).keyCode = [])
    ∧ (¬(ev.key = "Meta" ∧ kb.macLike) →
        (∀ c : Int, c ∈ (Keyboard.onRelease kb ev).keyCode
          ↔ c ∈ kb.keyCode ∧ c ≠ normalizeKeyCode kb.macLike ev.keyCode)
        ∧ (∀ s : String, s ∈ (Keyboard.onRelease kb ev).pressed
          ↔ s ∈ kb.pressed ∧ s ≠ pressedName (normalizeKeyCode kb.macLike ev.keyCode)))
    ∧ (ev.key = "Meta" ∧ kb2.macLike →
      (KeyboardB.onRelease kb2 ev).pressed = []
        ∧ (KeyboardB.onRelease kb2 ev).pressedKeyCode = [])
    ∧ (¬(ev.key = "Meta" ∧ kb2.macLike) →
        ∀ c : Int, c ∈ (KeyboardB.onRelease kb2 ev).pressedKeyCode
          ↔ c ∈ kb2.pressedKeyCode ∧ c ≠ normalizeKeyCode kb2.macLike ev.keyCode) := by
  refine ⟨?_, ?_, ?_, ?_⟩
  · intro hmeta
    unfold Keyboard.onRelease
    rw [if_pos hmeta]
    exact ⟨rfl, rfl⟩
  · intro hnot
    unfold Keyboard.onRelease
    rw [if_neg hnot]
    constructor
    · intro c
      simp [jsDelete, List.mem_filter]
    · intro s
      simp [jsDelete, List.mem_filter]
  · intro hmeta
    unfold KeyboardB.onRelease
    rw [if_neg (by simpa using hig2), if_pos hmeta]
    exact ⟨rfl, rfl⟩
  · intro hnot
    unfold KeyboardB.onRelease
    rw [if_neg (by simpa using hig2), if_neg hnot]
    intro c
    simp [jsDelete, List.mem_filter]

/-- A Mac-like tracker with the normalized Cmd (`Ctrl`) and `p` recorded as
pressed. -/
def c4Kb : Keyboard :=
  { kbEmpty with macLike := true, pressed := ["Ctrl", "KeyP"], keyCode := [-17, 80] }

/-- C4 witness: on a Mac-like tracker with `Ctrl` (normalized Cmd) and `p`
recorded, releasing Meta clears the entire pressed set. -/
theorem C4_witness :
    ((("Meta" : String) = "Meta" ∧ c4Kb.macLike) →
      (Keyboard.onRelease c4Kb ⟨"div", 91, "Meta"⟩).pressed = []
      ∧ (Keyboard.onRelease c4Kb ⟨"div", 91, "Meta"⟩).keyCode = [])
    ∧ (("Meta" : String) = "Meta" ∧ c4Kb.macLike)
    ∧ (Keyboard.onRelease c4Kb ⟨"div", 91, "Meta"⟩).pressed = [] := by
  have h := C4_release_correct c4Kb kbEmptyB ⟨"div", 91, "Meta"⟩ (by decide)
  exact ⟨h.1, by decide, h.1 (by decide) |>.1⟩

/-! ## Characterization of key-down dispatch -/

/-- The `_shortcuts` entries the part_003 key-down loop collects: those whose
stored `keys` equal the sorted-joined codes of the updated pressed set. -/
def matchedEntries (kb2 : KeyboardB) (ev : KEvent) : List (String × KeyboardB.Entry) :=
  kb2.shortcuts.filter (fun pr => pr.2.keys
    = pressedCombo (jsSetAdd kb2.pressedKeyCode (normalizeKeyCode kb2.macLike ev.keyCode)))

/-- Closed form of `KeyboardB.onPress` on a non-ignored event: the callbacks
of the matched entries are invoked in registry order with the triggering
event, and the pressed maps are cleared exactly when handlers matched and
their total running time exceeded the instant threshold. -/
theorem kbBOnPress_eq (kb2 : KeyboardB) (ev : KEvent) (dur : Nat → Nat)
    (hig : kb2.ignoreEventsFrom.contains ev.targetLocalName = false) :
    KeyboardB.onPress kb2 ev dur =
      ((if (matchedEntries kb2 ev).map (fun pr => pr.2.callback) ≠ []
            ∧ TIME_DURATION_INSTANT
              < ((((matchedEntries kb2 ev).map (fun pr => pr.2.callback)).map dur).sum)
        then { kb2 with pressed := [], pressedKeyCode := [] }
        else { kb2 with
          pressed := jsSetAdd kb2.pressed (pressedName (normalizeKeyCode kb2.macLike ev.keyCode)),
          pressedKeyCode := jsSetAdd kb2.pressedKeyCode (normalizeKeyCode kb2.macLike ev.keyCode) }),
       ((matchedEntries kb2 ev).map (fun pr => pr.2.callback)).map (fun cb => (cb, ev))) := by
  unfold KeyboardB.onPress matchedEntries
  rw [if_neg (by simpa using hig)]
  by_cases hm : (kb2.shortcuts.filter (fun pr => pr.2.keys
      = pressedCombo (jsSetAdd kb2.pressedKeyCode
          (normalizeKeyCode kb2.macLike ev.keyCode)))).map (fun pr => pr.2.callback) = []
  · simp only [hm, List.isEmpty_nil, if_true, List.map_nil, ne_eq, not_true_eq_false,
      false_and, if_false]
  · have hie : ((kb2.shortcuts.filter (fun pr => pr.2.keys
        = pressedCombo (jsSetAdd kb2.pressedKeyCode
            (normalizeKeyCode kb2.macLike ev.keyCode)))).map
        (fun pr => pr.2.callback)).isEmpty = false := by
      cases hc : (kb2.shortcuts.filter (fun pr => pr.2.keys
          = pressedCombo (jsSetAdd kb2.pressedKeyCode
              (normalizeKeyCode kb2.macLike ev.keyCode)))).map (fun pr => pr.2.callback) with
      | nil => exact absurd hc hm
      | cons a l => rfl
    simp only [hie, Bool.false_eq_true, if_false, ne_eq, hm, not_false_eq_true, true_and]
    split <;> rfl

/-- Closed form of `Keyboard.onPress` (`src/keyboard.js`) on a non-ignored
event: the pressed maps always record the normalized code, and the handler
of the exact sorted-joined match — if any — is invoked with the event. -/
theorem kbOnPress_eq (kb : Keyboard) (ev : KEvent)
    (hig : kb.ignoreEventsFrom.contains ev.targetLocalName = false) :
    Keyboard.onPress kb ev =
      ({ kb with
          pressed := jsSetAdd kb.pressed (pressedName (normalizeKeyCode kb.macLike ev.keyCode)),
          keyCode := jsSetAdd kb.keyCode (normalizeKeyCode kb.macLike ev.keyCode) },
       match jsLookup kb.shortcuts
          (pressedCombo (jsSetAdd kb.keyCode (normalizeKeyCode kb.macLike ev.keyCode))) with
       | some e => [(e.callback, ev)]
       | none => []) := by
  unfold Keyboard.onPress
  rw [if_neg (by simpa using hig)]
  show (match jsLookup kb.shortcuts
      (pressedCombo (jsSetAdd kb.keyCode (normalizeKeyCode kb.macLike ev.keyCode))) with
    | some e =>
      ({ kb with
          pressed := jsSetAdd kb.pressed (pressedName (normalizeKeyCode kb.macLike ev.keyCode)),
          keyCode := jsSetAdd kb.keyCode (normalizeKeyCode kb.macLike ev.keyCode) },
       [(e.callback, ev)])
    | none =>
      ({ kb with
          pressed := jsSetAdd kb.pressed (pressedName (normalizeKeyCode kb.macLike ev.keyCode)),
          keyCode := jsSetAdd kb.keyCode (normalizeKeyCode kb.macLike ev.keyCode) }, [])) = _
  cases jsLookup kb.shortcuts
      (pressedCombo (jsSetAdd kb.keyCode (normalizeKeyCode kb.macLike ev.keyCode))) with
  | some e => rfl
  | none => rfl

/-! ## Claim C6 -/

/-- C6: on a key-down, dispatch keys on the sorted-joined codes of the full
updated pressed set and fires on exact matches only.  For `src/keyboard.js`
(whose registry has unique keys): a registered entry whose comboKey equals
the pressed key is invoked synchronously with the triggering event; if no
entry's key matches, nothing fires; and at the code-set level, an entry
registered for codes `cs` fires when the pressed codes are a permutation of
`cs`, while a pressed set that is not a permutation of `cs` — in particular
any strict subset or superset — never produces that entry's key.  The
part_003 revision invokes exactly the callbacks of the entries whose stored
`keys` equal the pressed combo, each with the triggering event. -/
theorem C6_dispatch_correct (kb : Keyboard) (kb2 : KeyboardB) (ev : KEvent)
    (dur : Nat → Nat)
    (hig : kb.ignoreEventsFrom.contains ev.targetLocalName = false)
    (hig2 : kb2.ignoreEventsFrom.contains ev.targetLocalName = false)
    (hnd : (kb.shortcuts.map Prod.fst).Nodup) :
    (∀ k e, (k, e) ∈ kb.shortcuts →
      k = pressedCombo (jsSetAdd kb.keyCode (normalizeKeyCode kb.macLike ev.keyCode)) →
      (Keyboard.onPress kb ev).2 = [(e.callback, ev)])
    ∧ ((∀ pr ∈ kb.shortcuts,
        pr.1 ≠ pressedCombo (jsSetAdd kb.keyCode (normalizeKeyCode kb.macLike ev.keyCode))) →
        (Keyboard.onPress kb ev).2 = [])
    ∧ (∀ (cs : List Int) (e : Keyboard.Entry), (comboKeyOf cs, e) ∈ kb.shortcuts →
        (List.Perm (jsSetAdd kb.keyCode (normalizeKeyCode kb.macLike ev.keyCode)) cs →
          (Keyboard.onPress kb ev).2 = [(e.callback, ev)])
        ∧ (¬List.Perm (jsSetAdd kb.keyCode (normalizeKeyCode kb.macLike ev.keyCode)) cs →
          pressedCombo (jsSetAdd kb.keyCode (normalizeKeyCode kb.macLike ev.keyCode))
            ≠ comboKeyOf cs))
    ∧ (KeyboardB.onPress kb2 ev dur).2
        = ((matchedEntries kb2 ev).map (fun pr => pr.2.callback)).map (fun cb => (cb, ev)) := by
  have hcalls : (Keyboard.onPress kb ev).2
      = (match jsLookup kb.shortcuts
          (pressedCombo (jsSetAdd kb.keyCode (normalizeKeyCode kb.macLike ev.keyCode))) with
        | some e => [(e.callback, ev)]
        | none => []) := by
    rw [kbOnPress_eq kb ev hig]
  have hexact : ∀ k e, (k, e) ∈ kb.shortcuts →
      k = pressedCombo (jsSetAdd kb.keyCode (normalizeKeyCode kb.macLike ev.keyCode)) →
      (Keyboard.onPress kb ev).2 = [(e.callback, ev)] := by
    intro k e hmem hk
    have hl : jsLookup kb.shortcuts
        (pressedCombo (jsSetAdd kb.keyCode (normalizeKeyCode kb.macLike ev.keyCode)))
        = some e := by
      rw [← hk]
      exact jsLookup_of_mem_nodup hmem hnd
    rw [hcalls, hl]
  refine ⟨hexact, ?_, ?_, ?_⟩
  · intro hnone
    have hl : jsLookup kb.shortcuts
        (pressedCombo (jsSetAdd kb.keyCode (normalizeKeyCode kb.macLike ev.keyCode)))
        = none := jsLookup_eq_none_iff.mpr hnone
    rw [hcalls, hl]
  · intro cs e hmem
    constructor
    · intro hperm
      exact hexact _ e hmem ((pressedCombo_eq_comboKey_iff _ cs).mpr hperm).symm
    · intro hnp hc
      exact hnp ((pressedCombo_eq_comboKey_iff _ cs).mp hc)
  · rw [kbBOnPress_eq kb2 ev dur hig2]

/-- A tracker holding the combo `[Ctrl, p]` with the given codes pressed. -/
def c6Kb (pressedCodes : List Int) : Keyboard :=
  { kbEmpty with keyCode := pressedCodes, shortcuts := [("-17,80", ⟨7, none⟩)] }

/-- C6 witness: a tracker holding the combo `[Ctrl, p]`; pressing the full
combo fires its handler with the event, pressing only `p` — a strict subset —
fires nothing, and pressing `x` on top of the full combo — a strict
superset — fires nothing. -/
theorem C6_witness :
    (Keyboard.onPress (c6Kb [-17]) ⟨"div", 80, "p"⟩).2 = [(7, ⟨"div", 80, "p"⟩)]
    ∧ (Keyboard.onPress (c6Kb []) ⟨"div", 80, "p"⟩).2 = []
    ∧ (Keyboard.onPress (c6Kb [-17, 80]) ⟨"div", 88, "x"⟩).2 = [] := by
  refine ⟨?_, ?_, ?_⟩
  · exact (C6_dispatch_correct (c6Kb [-17]) kbEmptyB ⟨"div", 80, "p"⟩ (fun _ => 0)
      (by decide) (by decide) (by decide)).1 "-17,80" ⟨7, none⟩ (by decide) (by decide)
  · exact (C6_dispatch_correct (c6Kb []) kbEmptyB ⟨"div", 80, "p"⟩ (fun _ => 0)
      (by decide) (by decide) (by decide)).2.1 (by decide)
  · exact (C6_dispatch_correct (c6Kb [-17, 80]) kbEmptyB ⟨"div", 88, "x"⟩ (fun _ => 0)
      (by decide) (by decide) (by decide)).2.1 (by decide)

/-! ## Claim C3 -/

/-- A `src/keyboard.js` tracker holding a shortcut on `p` (code 80). -/
def c3Kb : Keyboard := (Keyboard.addShortcut kbEmpty 5 (KeyCodes.list [80]) none).state

/-- C3 counterexample: the `src/keyboard.js` dispatcher reads no clock at
all — its result is a pure function of the state and event, with no handler
timing anywhere in it — and after invoking the matched handler it leaves the
pressed maps holding the pressed key, never clearing them; under the claim
a dispatch whose handler ran longer than 200 ms would have to leave both
maps empty. -/
theorem C3_counterexample :
    (Keyboard.onPress c3Kb ⟨"div", 80, "p"⟩).2 = [(5, ⟨"div", 80, "p"⟩)]
    ∧ (Keyboard.onPress c3Kb ⟨"div", 80, "p"⟩).1.keyCode = [80]
    ∧ (Keyboard.onPress c3Kb ⟨"div", 80, "p"⟩).1.pressed = ["KeyP"]
    ∧ (Keyboard.onPress c3Kb ⟨"div", 80, "p"⟩).1.keyCode ≠ [] := by
  refine ⟨by decide, by decide, by decide, by decide⟩

/-- C3 (amended): the part_003 dispatcher reads `Date.now()` immediately
before invoking the matched handlers, and after they all return it clears
the entire pressed set — both the name map and the keyCode map — exactly
when their total wall-clock time exceeded `TIME_DURATION_INSTANT` (200 ms);
within the threshold both maps keep all recorded keys including the new one.
The `src/keyboard.js` dispatcher has no such timestamp heuristic and never
clears after dispatch. -/
theorem C3_amended_correct (kb2 : KeyboardB) (ev : KEvent) (dur : Nat → Nat)
    (hig : kb2.ignoreEventsFrom.contains ev.targetLocalName = false)
    (hmatch : (matchedEntries kb2 ev).map (fun pr => pr.2.callback) ≠ []) :
    (((KeyboardB.onPress kb2 ev dur).1.pressed = []
        ∧ (KeyboardB.onPress kb2 ev dur).1.pressedKeyCode = [])
      ↔ TIME_DURATION_INSTANT
          < ((((matchedEntries kb2 ev).map (fun pr => pr.2.callback)).map dur).sum))
    ∧ (¬TIME_DURATION_INSTANT
          < ((((matchedEntries kb2 ev).map (fun pr => pr.2.callback)).map dur).sum) →
        (KeyboardB.onPress kb2 ev dur).1.pressed
          = jsSetAdd kb2.pressed (pressedName (normalizeKeyCode kb2.macLike ev.keyCode))
        ∧ (KeyboardB.onPress kb2 ev dur).1.pressedKeyCode
          = jsSetAdd kb2.pressedKeyCode (normalizeKeyCode kb2.macLike ev.keyCode))
    ∧ (KeyboardB.onPress kb2 ev dur).2
        = ((matchedEntries kb2 ev).map (fun pr => pr.2.callback)).map (fun cb => (cb, ev)) := by
  rw [kbBOnPress_eq kb2 ev dur hig]
  by_cases ht : TIME_DURATION_INSTANT
      < ((((matchedEntries kb2 ev).map (fun pr => pr.2.callback)).map dur).sum)
  · rw [if_pos ⟨hmatch, ht⟩]
    refine ⟨⟨fun _ => ht, fun _ => ⟨rfl, rfl⟩⟩, fun hc => absurd ht hc, rfl⟩
  · rw [if_neg (fun hc => ht hc.2)]
    refine ⟨⟨?_, fun hc => absurd hc ht⟩, fun _ => ⟨rfl, rfl⟩, rfl⟩
    intro hcl
    exact absurd hcl.2 (jsSetAdd_ne_nil _ _)

/-- A part_003 tracker holding a shortcut on `p` (code 80). -/
def c3KbB : KeyboardB := (KeyboardB.addShortcut kbEmptyB 5 (KeyCodes.list [80]) none).state

/-- C3 witness: with a 300 ms handler the pressed maps are cleared; the
amended claim instantiated at the concrete tracker. -/
theorem C3_witness :
    (((KeyboardB.onPress c3KbB ⟨"div", 80, "p"⟩ (fun _ => 300)).1.pressed = []
        ∧ (KeyboardB.onPress c3KbB ⟨"div", 80, "p"⟩ (fun _ => 300)).1.pressedKeyCode = [])
      ↔ TIME_DURATION_INSTANT
          < ((((matchedEntries c3KbB ⟨"div", 80, "p"⟩).map (fun pr => pr.2.callback)).map
              (fun _ => 300)).sum))
    ∧ TIME_DURATION_INSTANT
        < ((((matchedEntries c3KbB ⟨"div", 80, "p"⟩).map (fun pr => pr.2.callback)).map
            (fun _ => 300)).sum)
    ∧ (KeyboardB.onPress c3KbB ⟨"div", 80, "p"⟩ (fun _ => 300)).1.pressedKeyCode = [] := by
  have h := C3_amended_correct c3KbB ⟨"div", 80, "p"⟩ (fun _ => 300) (by decide) (by decide)
  refine ⟨h.1, by decide, (h.1.mpr (by decide)).2⟩
